import Mathlib

/-!
Retro: partner directory page and offline cache worker.

A shallow embedding of `src/script.js` (router, list view engine, notification
centre) and `src/service-worker.js` (offline cache worker), followed by the
properties proved about them.

JavaScript strings are embedded as `String`; arrays as `List`; `undefined` and `null` as
`Option.none`.  Two services of the host engine whose tables are not part of the
repository, `String.prototype.toLowerCase` and `String.prototype.localeCompare`,
are taken as the fields of `JsEnv`; the HTML parser and the URL parser of the browser,
which stand between a link written by a template and the hash that the router reads, are
the fields of `Browser`.  The document is embedded by the content of the elements the
script writes (`#app-content`, `#notification-list`, the dots, the overlay class), one
constructor per template; the theme, the fade-in animation, the mobile header and the
`dismissing` class are presentation and are left out.
-/

namespace Retro

/-! ## Data model -/

/-- A partner entry of `tv.json` / `ott.json`. -/
structure PartnerItem where
  id : String
  name : String
  category : String
  logoUrl : String
  link : String
  description : String
  deriving DecidableEq

/-- The property names of a notification record. -/
inductive NotificationKey where
  | id
  | title
  | message
  | type
  | isRead
  deriving DecidableEq

/-- The property names in the order in which the data model lists them. -/
def dataModelKeys : List NotificationKey := [.id, .title, .message, .type, .isRead]

/-- A record of the notification list, as `JSON.parse` builds it from a message or from
`content.json`: the five property values, and the order `keys` in which the object holds
its properties (each of the five once), which is the order in which `JSON.stringify`
writes them. -/
structure NotificationRecord where
  id : String
  title : String
  message : String
  type : String
  isRead : Bool
  keys : List NotificationKey
  keys_perm : keys.Perm dataModelKeys
  deriving DecidableEq

/-- The two host string services the script calls: `s.toLowerCase()` and
`a.localeCompare(b)` (negative, zero or positive). -/
structure JsEnv where
  toLowerCase : String → String
  localeCompare : String → String → Int

/-! ## String primitives -/

/-- Search of `t` at every start position of `s`: `s.includes(t)` on characters. -/
def includesChars : List Char → List Char → Bool
  | [], t => t.isEmpty
  | c :: cs, t => t.isPrefixOf (c :: cs) || includesChars cs t

/-- The method `s.includes(t)`. -/
def includes (s t : String) : Bool := includesChars s.data t.data

/-- Segments of a character list between the occurrences of `sep`; the empty list has the
one empty segment, as `''.split('/')` is `['']`. -/
def splitChars (sep : Char) : List Char → List (List Char)
  | [] => [[]]
  | c :: cs =>
    if c = sep then [] :: splitChars sep cs
    else
      match splitChars sep cs with
      | [] => [[c]]
      | seg :: rest => (c :: seg) :: rest

/-- The call `s.split('/')`. -/
def split (s : String) (sep : Char) : List String :=
  (splitChars sep s.data).map String.mk

/-- The call `s.substring(1)`: the string without its first character. -/
def substring1 (s : String) : String := ⟨s.data.drop 1⟩

/-! ## List view engine: `applyFiltersAndSort` -/

/-- One insertion step of the stable sort: `a` goes before the first element `b`
for which the comparator does not put `a` after `b` (`cmp a b ≤ 0`). -/
def sortInsert {α : Type} (cmp : α → α → Int) (a : α) : List α → List α
  | [] => [a]
  | b :: l => if cmp a b ≤ 0 then a :: b :: l else b :: sortInsert cmp a l

/-- The method `Array.prototype.sort(cmp)`: a stable sort by a comparator whose positive
result `cmp a b > 0` puts `a` after `b`. -/
def arraySort {α : Type} (cmp : α → α → Int) : List α → List α
  | [] => []
  | a :: l => sortInsert cmp a (arraySort cmp l)

/-- The comparator of line 265:
`currentSortMethod === 'za' ? b.name.localeCompare(a.name) : a.name.localeCompare(b.name)`. -/
def sortComparator (E : JsEnv) (currentSortMethod : String) (a b : PartnerItem) : Int :=
  if currentSortMethod = "za" then E.localeCompare b.name a.name
  else E.localeCompare a.name b.name

/-- The filter predicate of line 264:
`item.name.toLowerCase().includes(currentSearchTerm.toLowerCase())`. -/
def matchesSearch (E : JsEnv) (currentSearchTerm : String) (item : PartnerItem) : Bool :=
  includes (E.toLowerCase item.name) (E.toLowerCase currentSearchTerm)

/-- The function `applyFiltersAndSort(items)` under the search term and sort method held in
the module state. -/
def applyFiltersAndSort (E : JsEnv) (currentSearchTerm currentSortMethod : String)
    (items : List PartnerItem) : List PartnerItem :=
  let processedData := items.filter (matchesSearch E currentSearchTerm)
  arraySort (sortComparator E currentSortMethod) processedData

/-! ## Page state -/

/-- A row (list layout) or card (grid layout) of the partner container: the text that the
template writes between the double quotes of its `href` attribute, and the item whose logo,
name and category it shows. -/
structure PartnerRow where
  hrefText : String
  item : PartnerItem
  deriving DecidableEq

/-- Content of `#partner-container`. -/
inductive PartnerContainer where
  | blank
  | noPartners
  | rows (rs : List PartnerRow)
  deriving DecidableEq

/-- Content of `#app-content`, one constructor per template the script writes there. -/
inductive AppView where
  | blank
  | loadingSpinner
  | loadError
  | partnerPage (title currentView currentSortMethod searchValue containerClass : String)
      (container : PartnerContainer)
  | detail (backHref : String) (item : PartnerItem)
  | notFound
  | about
  deriving DecidableEq

/-- One rendered `.notification-item`. -/
structure NotificationItemView where
  unread : Bool
  dataId : String
  icon : String
  type : String
  title : String
  message : String
  markReadButton : Bool
  deriving DecidableEq

/-- Content of `#notification-list`. -/
inductive NotificationListView where
  | blank
  | placeholder
  | items (views : List NotificationItemView)
  deriving DecidableEq

/-- The module state of `script.js` together with the parts of the document and of the
browser that the modelled functions read or write. -/
structure AppState where
  tvData : List PartnerItem
  ottData : List PartnerItem
  notificationData : List NotificationRecord
  currentView : String
  currentSearchTerm : String
  currentSortMethod : String
  localStorage : List (String × String)
  locationHash : String
  appContent : AppView
  activeNavPage : Option String
  notificationCenterShow : Bool
  notificationList : NotificationListView
  notificationDot : Bool
  deriving DecidableEq

/-- The call `localStorage.getItem(key)`; `none` stands for `null`. -/
def getItem (localStorage : List (String × String)) (key : String) : Option String :=
  localStorage.lookup key

/-- The call `localStorage.setItem(key, value)`. -/
def setItem (localStorage : List (String × String)) (key value : String) :
    List (String × String) :=
  (key, value) :: localStorage.filter (fun kv => kv.1 ≠ key)

/-- The expression `v || d` for a string or `null` value `v`: the empty string is falsy. -/
def orDefault (v : Option String) (d : String) : String :=
  match v with
  | some s => if s = "" then d else s
  | none => d

/-- Truthiness of a string or `undefined` value, as tested by `if (id)`. -/
def truthy (v : Option String) : Bool :=
  match v with
  | some s => s ≠ ""
  | none => false

/-! ## Router -/

/-- Line 120: `window.location.hash || '#live-tv'`. -/
def navHash (locationHash : String) : String := orDefault (some locationHash) "#live-tv"

/-- Line 121: `hash.substring(1).split('/')[0]`. -/
def navPage (locationHash : String) : String :=
  match split (substring1 (navHash locationHash)) '/' with
  | p :: _ => p
  | [] => ""

/-- Line 122: `hash.substring(1).split('/')[1]`. -/
def navId (locationHash : String) : Option String :=
  (split (substring1 (navHash locationHash)) '/')[1]?

/-- The `pageType` of `renderDetailPage` and `renderItems`:
`window.location.hash.includes('ott') ? 'ott' : 'live-tv'`. -/
def hashPageType (locationHash : String) : String :=
  if includes locationHash "ott" then "ott" else "live-tv"

/-- The function `renderItems(itemsToRender)`.  Each row holds the text that the template
writes between the quotes of `href`, with the item id unescaped; what the HTML parser reads
from it is `rowLink`. -/
def renderItems (s : AppState) (itemsToRender : List PartnerItem) : AppState :=
  match s.appContent with
  | .partnerPage title cv sm sv _ _ =>
    let className := if s.currentView = "list" then "partner-list" else "partner-grid"
    if itemsToRender.length = 0 then
      { s with appContent := .partnerPage title cv sm sv className .noPartners }
    else
      let pageType := hashPageType s.locationHash
      let rows := itemsToRender.map fun item => PartnerRow.mk ("#" ++ pageType ++ "/" ++ item.id) item
      { s with appContent := .partnerPage title cv sm sv className (.rows rows) }
  | _ => s

/-- The function `renderPartnerPage(items, title, pageType)` (listeners apart). -/
def renderPartnerPage (E : JsEnv) (s : AppState) (items : List PartnerItem)
    (title pageType : String) : AppState :=
  let currentSearchTerm := orDefault (getItem s.localStorage (pageType ++ "_search")) ""
  let currentSortMethod := orDefault (getItem s.localStorage (pageType ++ "_sort")) "az"
  let s1 : AppState :=
    { s with
      currentSearchTerm := currentSearchTerm
      currentSortMethod := currentSortMethod
      appContent :=
        .partnerPage title s.currentView currentSortMethod currentSearchTerm "" .blank }
  renderItems s1 (applyFiltersAndSort E s1.currentSearchTerm s1.currentSortMethod items)

/-- The function `renderDetailPage(item)`. -/
def renderDetailPage (s : AppState) (item : PartnerItem) : AppState :=
  let pageType := hashPageType s.locationHash
  { s with appContent := .detail ("#" ++ pageType) item }

/-- The function `renderAboutPage()`. -/
def renderAboutPage (s : AppState) : AppState := { s with appContent := .about }

/-- The function `navigate()`. -/
def navigate (E : JsEnv) (s : AppState) : AppState :=
  let page := navPage s.locationHash
  let id := navId s.locationHash
  let s1 : AppState := { s with activeNavPage := some page, notificationCenterShow := false }
  if truthy id then
    let sourceData := if page = "live-tv" then s1.tvData else s1.ottData
    match sourceData.find? (fun d => some d.id = id) with
    | some item => renderDetailPage s1 item
    | none => { s1 with appContent := .notFound }
  else if page = "live-tv" then renderPartnerPage E s1 s1.tvData "Live TV Channels" "live-tv"
  else if page = "ott" then renderPartnerPage E s1 s1.ottData "OTT Platforms" "ott"
  else if page = "about" then renderAboutPage s1
  else if page = "notifications" then s1
  else renderPartnerPage E s1 s1.tvData "Live TV Channels" "live-tv"

/-! ## Notification centre -/

/-- The function `updateNotificationDot()`: every `.notification-dot` is shown exactly when
`notificationData.some(n => !n.isRead)`. -/
def updateNotificationDot (s : AppState) : AppState :=
  { s with notificationDot := s.notificationData.any fun n => !n.isRead }

/-- The item template of `renderNotifications()`. -/
def notificationItemView (n : NotificationRecord) : NotificationItemView where
  unread := !n.isRead
  dataId := n.id
  icon :=
    if n.type = "alert" then "error-circle"
    else if n.type = "update" then "up-arrow-circle"
    else "info-circle"
  type := n.type
  title := n.title
  message := n.message
  markReadButton := !n.isRead

/-- The function `renderNotifications()`. -/
def renderNotifications (s : AppState) : AppState :=
  let s1 := updateNotificationDot s
  if s1.notificationData.length = 0 then
    { s1 with notificationList := .placeholder }
  else
    { s1 with notificationList := .items (s1.notificationData.map notificationItemView) }

/-- The method `findIndex(p)`; `none` stands for `-1`. -/
def findIndex {α : Type} (p : α → Bool) : List α → Option Nat
  | [] => none
  | a :: l => if p a then some 0 else (findIndex p l).map (· + 1)

/-- The assignment `notificationData[i].isRead = true`. -/
def setIsRead : Nat → List NotificationRecord → List NotificationRecord
  | _, [] => []
  | 0, n :: l => { n with isRead := true } :: l
  | i + 1, n :: l => n :: setIsRead i l

/-- A click inside `#notification-list`: the `data-id` of `target.closest('.notification-item')`
(`none` when there is no such ancestor) and the class list of the target. -/
structure NotificationClick where
  parentItemId : Option String
  classList : List String
  deriving DecidableEq

/-- The function `handleNotificationInteraction(e)`, up to the registration of the
`animationend` listener (whose body is `dismissAnimationEnd`). -/
def handleNotificationInteraction (s : AppState) (e : NotificationClick) : AppState :=
  match e.parentItemId with
  | none => s
  | some notifId =>
    match findIndex (fun n => n.id = notifId) s.notificationData with
    | none => s
    | some notifIndex =>
      let s1 : AppState :=
        if e.classList.contains "mark-read" then
          { s with notificationData := setIsRead notifIndex s.notificationData }
        else s
      if e.classList.contains "dismiss" then s1
      else renderNotifications s1

/-- The `animationend` listener registered by a dismiss click on the item `notifId`
(lines 310 to 314). -/
def dismissAnimationEnd (s : AppState) (notifId : String) : AppState :=
  let s1 : AppState :=
    match findIndex (fun n => n.id = notifId) s.notificationData with
    | some freshIndex => { s with notificationData := s.notificationData.eraseIdx freshIndex }
    | none => s
  renderNotifications s1

/-- The click listener of `#notification-clear-all` (line 236). -/
def clearAll (s : AppState) : AppState :=
  renderNotifications { s with notificationData := [] }

/-! ### `JSON.stringify` on notification lists -/

/-- The character `"`. -/
def dquote : Char := Char.ofNat 34

/-- The character `\`. -/
def backslash : Char := Char.ofNat 92

/-- Lower-case hexadecimal digit. -/
def hexDigit (n : Nat) : Char :=
  if n < 10 then Char.ofNat (48 + n) else Char.ofNat (87 + n)

/-- One character of `QuoteJSONString`: the two-character escapes, `\u00xx` for the other
control characters, the character itself otherwise. -/
def quoteJSONChar (c : Char) : List Char :=
  if c = dquote then [backslash, dquote]
  else if c = backslash then [backslash, backslash]
  else if c = Char.ofNat 8 then [backslash, 'b']
  else if c = Char.ofNat 9 then [backslash, 't']
  else if c = Char.ofNat 10 then [backslash, 'n']
  else if c = Char.ofNat 12 then [backslash, 'f']
  else if c = Char.ofNat 13 then [backslash, 'r']
  else if c.toNat < 32 then
    [backslash, 'u', '0', '0', hexDigit (c.toNat / 16), hexDigit (c.toNat % 16)]
  else [c]

/-- Escaped body of a string. -/
def quoteJSONChars : List Char → List Char
  | [] => []
  | c :: cs => quoteJSONChar c ++ quoteJSONChars cs

/-- The operation `QuoteJSONString`. -/
def quoteJSONString (s : String) : List Char :=
  dquote :: (quoteJSONChars s.data ++ [dquote])

/-- A property key with its colon. -/
def jsonKey (k : String) : List Char := dquote :: (k.data ++ [dquote, ':'])

/-- Serialisation of a boolean. -/
def stringifyBool (b : Bool) : List Char := if b then "true".data else "false".data

/-- The name of a property, as written in the serialisation. -/
def keyName : NotificationKey → String
  | .id => "id"
  | .title => "title"
  | .message => "message"
  | .type => "type"
  | .isRead => "isRead"

/-- The value of a property of a notification record: a string or a boolean. -/
inductive PropertyValue where
  | str (s : String)
  | bool (b : Bool)
  deriving DecidableEq

/-- The value that a record holds under a property name. -/
def propertyValue (n : NotificationRecord) : NotificationKey → PropertyValue
  | .id => .str n.id
  | .title => .str n.title
  | .message => .str n.message
  | .type => .str n.type
  | .isRead => .bool n.isRead

/-- Serialisation of a property value. -/
def stringifyValue : PropertyValue → List Char
  | .str s => quoteJSONString s
  | .bool b => stringifyBool b

/-- Serialisation of the properties named by `ks`, in that order, separated by commas. -/
def stringifyProperties (n : NotificationRecord) : List NotificationKey → List Char
  | [] => []
  | [k] => jsonKey (keyName k) ++ stringifyValue (propertyValue n k)
  | k :: k1 :: ks =>
    jsonKey (keyName k) ++ (stringifyValue (propertyValue n k)
      ++ (',' :: stringifyProperties n (k1 :: ks)))

/-- Serialisation of one record: its properties in the order in which the object holds
them. -/
def stringifyRecord (n : NotificationRecord) : List Char :=
  Char.ofNat 123 :: (stringifyProperties n n.keys ++ [Char.ofNat 125])

/-- The elements of an array, separated by commas. -/
def stringifyElements : List NotificationRecord → List Char
  | [] => []
  | [n] => stringifyRecord n
  | n :: m :: l => stringifyRecord n ++ (',' :: stringifyElements (m :: l))

/-- The call `JSON.stringify(list)` on a notification list. -/
def jsonStringify (l : List NotificationRecord) : String :=
  ⟨'[' :: (stringifyElements l ++ [']'])⟩

/-- The `onmessage` handler of `setupNotificationListener()`, on the list
`newNotifications` parsed from `event.data`. -/
def onmessage (s : AppState) (newNotifications : List NotificationRecord) : AppState :=
  if jsonStringify newNotifications ≠ jsonStringify s.notificationData then
    let s1 := renderNotifications { s with notificationData := newNotifications }
    { s1 with notificationCenterShow := true }
  else s

/-! ## Startup -/

/-- The function `fetchPageData()` up to its `await`. -/
def fetchPageDataStart (s : AppState) : AppState := { s with appContent := .loadingSpinner }

/-- The function `fetchPageData()` after its `await`: `some (tv, ott)` when both fetches
succeeded, `none` when the `catch` branch runs. -/
def fetchPageDataDone (E : JsEnv) (s : AppState)
    (result : Option (List PartnerItem × List PartnerItem)) : AppState :=
  match result with
  | some (tv, ott) => navigate E (renderNotifications { s with tvData := tv, ottData := ott })
  | none => { s with appContent := .loadError }

/-- The function `initializeApp()` (theme and listener registration apart). -/
def initializeApp (s : AppState) : AppState := fetchPageDataStart s

/-- The function `handleEntry()`. -/
def handleEntry (s : AppState) : AppState :=
  if truthy (getItem s.localStorage "hasVisited") then initializeApp s else s

/-- The function `main()` when `content.json` has loaded with the list `notifications`. -/
def main (s : AppState) (notifications : List NotificationRecord) : AppState :=
  handleEntry { s with notificationData := notifications }

/-- The operations on the notification state. -/
inductive NotificationOp where
  | initialLoad (notifications : List NotificationRecord)
  | pageDataLoaded (tv ott : List PartnerItem)
  | push (newNotifications : List NotificationRecord)
  | click (e : NotificationClick)
  | animationEnd (notifId : String)
  | clearAll
  deriving DecidableEq

/-- The handler that runs for each operation. -/
def runOp (E : JsEnv) (s : AppState) : NotificationOp → AppState
  | .initialLoad notifications => main s notifications
  | .pageDataLoaded tv ott => fetchPageDataDone E s (some (tv, ott))
  | .push newNotifications => onmessage s newNotifications
  | .click e => handleNotificationInteraction s e
  | .animationEnd notifId => dismissAnimationEnd s notifId
  | .clearAll => clearAll s

/-- The document before the script has run: nothing loaded, static markup only, the dots
in the state `dot` that the markup and style sheet give them. -/
def initialState (localStorage : List (String × String)) (locationHash : String)
    (dot : Bool) : AppState where
  tvData := []
  ottData := []
  notificationData := []
  currentView := orDefault (getItem localStorage "viewPreference") "list"
  currentSearchTerm := ""
  currentSortMethod := "az"
  localStorage := localStorage
  locationHash := locationHash
  appContent := .blank
  activeNavPage := none
  notificationCenterShow := false
  notificationList := .blank
  notificationDot := dot

/-! ## Offline cache worker (`service-worker.js`) -/

/-- Line 2. -/
def CACHE_NAME : String := "retroflix-v1"

/-- The cache storage: the named stores in creation order, each a list of request and
response pairs. -/
abbrev CacheStorage (Req Resp : Type) := List (String × List (Req × Resp))

/-- The call `caches.match(request)`: the first matching entry of the first store that
has one; `none` stands for `undefined`. -/
def cachesMatch {Req Resp : Type} (reqMatches : Req → Req → Bool)
    (caches : CacheStorage Req Resp) (request : Req) : Option Resp :=
  caches.findSome? fun store => (store.2.find? fun e => reqMatches request e.1).map (·.2)

/-- The call `caches.keys()`. -/
def cachesKeys {Req Resp : Type} (caches : CacheStorage Req Resp) : List String :=
  caches.map (·.1)

/-- The call `caches.delete(cacheName)`. -/
def cachesDelete {Req Resp : Type} (caches : CacheStorage Req Resp) (cacheName : String) :
    CacheStorage Req Resp :=
  caches.filter fun store => store.1 ≠ cacheName

/-- The promise handed to `event.respondWith` by the fetch listener:
`fetch(event.request).catch(() => caches.match(event.request))`.  The network attempt is
`Except.ok` when `fetch` resolves and `Except.error` when it rejects. -/
def fetchListener {Req Resp Err : Type} (reqMatches : Req → Req → Bool)
    (network : Req → Except Err Resp) (caches : CacheStorage Req Resp) (request : Req) :
    Except Err (Option Resp) :=
  match network request with
  | .ok response => .ok (some response)
  | .error _ => .ok (cachesMatch reqMatches caches request)

/-- What the page receives for an intercepted request. -/
inductive PageResult (Resp : Type) where
  | response (r : Resp)
  | networkError
  deriving DecidableEq

/-- The method `event.respondWith(promise)`: a promise that rejects, or resolves to
something that is not a response, gives the page a network error. -/
def respondWith {Resp Err : Type} : Except Err (Option Resp) → PageResult Resp
  | .ok (some r) => .response r
  | .ok none => .networkError
  | .error _ => .networkError

/-- The activate listener for a worker whose cache name is `cacheName`: every key that
is not in the whitelist is deleted. -/
def activateListener {Req Resp : Type} (cacheName : String)
    (caches : CacheStorage Req Resp) : CacheStorage Req Resp :=
  let cacheWhitelist := [cacheName]
  (cachesKeys caches).foldl
    (fun cs name => if cacheWhitelist.contains name then cs else cachesDelete cs name) caches

/-! ## A reference host environment -/

/-- Comparison of two character lists by code point, first difference first. -/
def compareChars : List Char → List Char → Int
  | [], [] => 0
  | [], _ :: _ => -1
  | _ :: _, [] => 1
  | a :: as, b :: bs =>
    if a.toNat < b.toNat then -1
    else if b.toNat < a.toNat then 1
    else compareChars as bs

/-- An environment for concrete evaluation: lower-casing of the letters `A` to `Z` and
comparison by code point. -/
def refEnv : JsEnv where
  toLowerCase := fun s => ⟨s.data.map Char.toLower⟩
  localeCompare := fun a b => compareChars a.data b.data

/-- A partner item with the given id and name, the other fields empty. -/
def sampleItem (id name : String) : PartnerItem := ⟨id, name, "", "", "", ""⟩

/-- A state for concrete evaluation: the initial document with the given fragment and data. -/
def sampleState (locationHash : String) (tvData ottData : List PartnerItem)
    (notificationData : List NotificationRecord) : AppState :=
  { initialState [] locationHash false with
    tvData := tvData, ottData := ottData, notificationData := notificationData }

/-! ## Route parsing as the specification words it -/

/-- The text of a fragment before its first `/` (the whole fragment when it has none). -/
def textBeforeFirstSlash (fragment : String) : String :=
  ⟨fragment.data.takeWhile (· ≠ '/')⟩

/-- The text of a fragment after its first `/`; `none` when it has no `/`. -/
def textAfterFirstSlash (fragment : String) : Option String :=
  if '/' ∈ fragment.data then some ⟨(fragment.data.dropWhile (· ≠ '/')).drop 1⟩ else none

/-- The text of a fragment between its first `/` and the next `/` (or the end of the
fragment); `none` when it has no `/`. -/
def textBetweenFirstAndSecondSlash (fragment : String) : Option String :=
  if '/' ∈ fragment.data then
    some ⟨((fragment.data.dropWhile (· ≠ '/')).drop 1).takeWhile (· ≠ '/')⟩
  else none

/-- Value of a lower-case hexadecimal digit. -/
def hexValue (c : Char) : Nat :=
  if c.toNat < 58 then c.toNat - 48 else c.toNat - 87

/-- Reading back one character written by `quoteJSONChar`: the character and the rest of
the input. -/
def unquoteJSONChar : List Char → Option (Char × List Char)
  | [] => none
  | x :: rest =>
    if x = backslash then
      match rest with
      | [] => none
      | y :: rest1 =>
        if y = dquote then some (dquote, rest1)
        else if y = backslash then some (backslash, rest1)
        else if y = 'b' then some (Char.ofNat 8, rest1)
        else if y = 't' then some (Char.ofNat 9, rest1)
        else if y = 'n' then some (Char.ofNat 10, rest1)
        else if y = 'f' then some (Char.ofNat 12, rest1)
        else if y = 'r' then some (Char.ofNat 13, rest1)
        else
          match rest1 with
          | _ :: _ :: h1 :: h2 :: rest2 =>
            some (Char.ofNat (16 * hexValue h1 + hexValue h2), rest2)
          | _ => none
    else some (x, rest)

/-- The unread indicator as the specification words it: the dot is visible exactly when at
least one held record has `isRead` false. -/
def dotInvariant (s : AppState) : Prop :=
  s.notificationDot = true ↔ ∃ n ∈ s.notificationData, n.isRead = false

instance (s : AppState) : Decidable (dotInvariant s) := by
  unfold dotInvariant
  infer_instance

/-- A notification record with the given id and read flag, of type `info`. -/
def sampleNotification (id : String) (isRead : Bool) : NotificationRecord :=
  ⟨id, "Title", "Message", "info", isRead, dataModelKeys, List.Perm.refl _⟩

/-- The same record as `sampleNotification id isRead`, its properties held in another
order: `isRead` first. -/
def reorderedNotification (id : String) (isRead : Bool) : NotificationRecord :=
  ⟨id, "Title", "Message", "info", isRead, [.isRead, .id, .title, .message, .type],
    by decide⟩

/-- The values of the five properties of a record, whatever their order in the object. -/
def recordValues (n : NotificationRecord) : String × String × String × String × Bool :=
  (n.id, n.title, n.message, n.type, n.isRead)

/-- Structural equality of two notification lists as the specification words it: the same
records in the same positions, each with the same value for every property. -/
def structurallyEqual (l l1 : List NotificationRecord) : Prop :=
  l.map recordValues = l1.map recordValues

instance (l l1 : List NotificationRecord) : Decidable (structurallyEqual l l1) := by
  unfold structurallyEqual
  infer_instance

/-! ## Following a listing link -/

/-- The rows of the partner listing shown in `#app-content`; none when it shows no listing. -/
def listingRows : AppView → List PartnerRow
  | .partnerPage _ _ _ _ _ (.rows rs) => rs
  | _ => []

/-- The two services of the browser between a row template and the router: the value that
the HTML parser gives an attribute whose text between double quotes is `raw`, and the value
of `location.hash` once the browser has followed a link whose `href` value is the fragment
reference `href`. -/
structure Browser where
  attributeValue : String → String
  hashAfterLink : String → String

/-- The characters that both services leave as they are: printable ASCII other than the
space, `"`, `&`, `<`, `>` and the backtick.  The HTML parser ends the attribute at `"` and
starts a character reference at `&`; the URL parser percent-encodes the controls, the
space, `"`, `<`, `>`, the backtick and everything above `~` in a fragment. -/
def plainChar (c : Char) : Bool :=
  decide (33 ≤ c.toNat) && decide (c.toNat ≤ 126) && !(c == dquote) && !(c == Char.ofNat 38)
    && !(c == Char.ofNat 60) && !(c == Char.ofNat 62) && !(c == Char.ofNat 96)

/-- The link of a row as the HTML parser reads it from the markup. -/
def rowLink (B : Browser) (row : PartnerRow) : String := B.attributeValue row.hrefText

/-- The `hashchange` listener (line 230) once the browser has followed a link whose `href`
value is `href`: `location.hash` is what the browser makes of the link, and `navigate()`
runs. -/
def hashchange (E : JsEnv) (B : Browser) (s : AppState) (href : String) : AppState :=
  navigate E { s with locationHash := B.hashAfterLink href }

/-! ### A reference browser -/

/-- The list `l` without its prefix `p`, when it starts with `p`. -/
def stripPrefix (p l : List Char) : Option (List Char) :=
  if p.isPrefixOf l then some (l.drop p.length) else none

/-- The named character references that the reference browser decodes, without their `&`. -/
def namedCharRefs : List (List Char × Char) :=
  [("amp;".data, Char.ofNat 38), ("lt;".data, Char.ofNat 60), ("gt;".data, Char.ofNat 62),
    ("quot;".data, dquote)]

/-- Decoding of the named character references of `namedCharRefs`; `fuel` bounds the number
of characters read. -/
def decodeCharRefsAux : Nat → List Char → List Char
  | 0, _ => []
  | _ + 1, [] => []
  | fuel + 1, c :: rest =>
    if c = Char.ofNat 38 then
      match namedCharRefs.findSome? fun e => (stripPrefix e.1 rest).map fun r => (e.2, r) with
      | some (d, r) => d :: decodeCharRefsAux fuel r
      | none => c :: decodeCharRefsAux fuel rest
    else c :: decodeCharRefsAux fuel rest

/-- Value of a double-quoted attribute written as `raw`: the text up to the first `"`, its
character references decoded. -/
def refAttributeValue (raw : String) : String :=
  ⟨decodeCharRefsAux raw.length (raw.data.takeWhile (· ≠ dquote))⟩

/-- Upper-case hexadecimal digit. -/
def upperHexDigit (n : Nat) : Char :=
  if n < 10 then Char.ofNat (48 + n) else Char.ofNat (55 + n)

/-- The bytes of the UTF-8 encoding of a code point. -/
def utf8Bytes (n : Nat) : List Nat :=
  if n < 128 then [n]
  else if n < 2048 then [192 + n / 64, 128 + n % 64]
  else if n < 65536 then [224 + n / 4096, 128 + n / 64 % 64, 128 + n % 64]
  else [240 + n / 262144, 128 + n / 4096 % 64, 128 + n / 64 % 64, 128 + n % 64]

/-- Percent-encoding of one byte. -/
def percentEncodeByte (b : Nat) : List Char :=
  ['%', upperHexDigit (b / 16), upperHexDigit (b % 16)]

/-- Percent-encoding of the bytes of a character. -/
def percentEncodeBytes : List Nat → List Char
  | [] => []
  | b :: bs => percentEncodeByte b ++ percentEncodeBytes bs

/-- The fragment percent-encode set of the URL standard: the controls, the space, `"`, `<`,
`>`, the backtick and every code point above `~`. -/
def inFragmentEncodeSet (c : Char) : Bool :=
  decide (c.toNat < 33) || decide (126 < c.toNat) || c == dquote || c == Char.ofNat 60
    || c == Char.ofNat 62 || c == Char.ofNat 96

/-- Percent-encoding of a fragment. -/
def fragmentEncode : List Char → List Char
  | [] => []
  | c :: cs =>
    (if inFragmentEncodeSet c then percentEncodeBytes (utf8Bytes c.toNat) else [c])
      ++ fragmentEncode cs

/-- The input of the URL parser: leading and trailing controls and spaces stripped, tabs and
newlines removed. -/
def urlInput (l : List Char) : List Char :=
  (((l.dropWhile fun c => decide (c.toNat ≤ 32)).reverse.dropWhile
    fun c => decide (c.toNat ≤ 32)).reverse).filter
    fun c => !(c == Char.ofNat 9 || c == Char.ofNat 10 || c == Char.ofNat 13)

/-- Value of `location.hash` after a fragment reference `href` has been followed: `#` and
the percent-encoded fragment, or the empty string for an empty fragment.  A link that is
not a fragment reference leaves the document; the reference gives the empty string. -/
def refHashAfterLink (href : String) : String :=
  match urlInput href.data with
  | [] => ""
  | c :: frag =>
    if c = '#' then
      if frag = [] then "" else ⟨'#' :: fragmentEncode frag⟩
    else ""

/-- A browser for concrete evaluation.  Of the character references it decodes the four of
`namedCharRefs` only. -/
def refBrowser : Browser where
  attributeValue := refAttributeValue
  hashAfterLink := refHashAfterLink

/-! ## Properties of the primitives -/

theorem includesChars_iff (s t : List Char) : includesChars s t = true ↔ t <:+: s := by
  induction s with
  | nil => cases t <;> simp [includesChars]
  | cons c cs ih =>
    rw [includesChars, Bool.or_eq_true, ih, List.infix_cons_iff, List.isPrefixOf_iff_prefix]

theorem sortInsert_perm {α : Type} (cmp : α → α → Int) (a : α) (l : List α) :
    (sortInsert cmp a l).Perm (a :: l) := by
  induction l with
  | nil => exact List.Perm.refl _
  | cons b l ih =>
    unfold sortInsert
    split_ifs
    · exact List.Perm.refl _
    · exact (List.Perm.cons b ih).trans (List.Perm.swap a b l)

theorem arraySort_perm {α : Type} (cmp : α → α → Int) (l : List α) :
    (arraySort cmp l).Perm l := by
  induction l with
  | nil => exact List.Perm.refl _
  | cons a l ih => exact (sortInsert_perm cmp a _).trans (List.Perm.cons a ih)

theorem sortInsert_pairwise {α : Type} (cmp : α → α → Int)
    (htotal : ∀ a b, cmp a b ≤ 0 ∨ cmp b a ≤ 0)
    (htrans : ∀ a b c, cmp a b ≤ 0 → cmp b c ≤ 0 → cmp a c ≤ 0) (a : α) (l : List α)
    (hl : l.Pairwise (fun x y => cmp x y ≤ 0)) :
    (sortInsert cmp a l).Pairwise (fun x y => cmp x y ≤ 0) := by
  induction l with
  | nil => simp [sortInsert]
  | cons b l ih =>
    unfold sortInsert
    rw [List.pairwise_cons] at hl
    split_ifs with hab
    · refine List.Pairwise.cons ?_ (List.Pairwise.cons hl.1 hl.2)
      intro y hy
      rcases List.mem_cons.1 hy with rfl | hy
      · exact hab
      · exact htrans _ _ _ hab (hl.1 y hy)
    · refine List.Pairwise.cons ?_ (ih hl.2)
      intro y hy
      rcases List.mem_cons.1 ((sortInsert_perm cmp a l).subset hy) with rfl | hy
      · exact (htotal y b).resolve_left hab
      · exact hl.1 y hy

theorem arraySort_pairwise {α : Type} (cmp : α → α → Int)
    (htotal : ∀ a b, cmp a b ≤ 0 ∨ cmp b a ≤ 0)
    (htrans : ∀ a b c, cmp a b ≤ 0 → cmp b c ≤ 0 → cmp a c ≤ 0) (l : List α) :
    (arraySort cmp l).Pairwise (fun x y => cmp x y ≤ 0) := by
  induction l with
  | nil => exact List.Pairwise.nil
  | cons a l ih => exact sortInsert_pairwise cmp htotal htrans a _ ih

theorem arraySort_of_pairwise {α : Type} (cmp : α → α → Int) (l : List α)
    (hl : l.Pairwise (fun x y => cmp x y ≤ 0)) : arraySort cmp l = l := by
  induction l with
  | nil => rfl
  | cons a l ih =>
    rw [List.pairwise_cons] at hl
    rw [arraySort, ih hl.2]
    cases l with
    | nil => rfl
    | cons b l => simp [sortInsert, hl.1 b (List.mem_cons_self b l)]

theorem compareChars_total (a b : List Char) : compareChars a b ≤ 0 ∨ compareChars b a ≤ 0 := by
  induction a generalizing b with
  | nil => cases b <;> simp [compareChars]
  | cons x a ih =>
    cases b with
    | nil => simp [compareChars]
    | cons y b =>
      simp only [compareChars]
      split_ifs <;> first | omega | simp | exact ih b

theorem compareChars_trans (a b c : List Char) (hab : compareChars a b ≤ 0)
    (hbc : compareChars b c ≤ 0) : compareChars a c ≤ 0 := by
  induction a generalizing b c with
  | nil => cases c <;> simp [compareChars]
  | cons x a ih =>
    cases b with
    | nil => simp [compareChars] at hab
    | cons y b =>
      cases c with
      | nil => simp [compareChars] at hbc
      | cons z c =>
        simp only [compareChars] at hab hbc ⊢
        split_ifs at hab hbc ⊢ <;> first | omega | simp | exact ih b c hab hbc

theorem refEnv_total (a b : String) :
    refEnv.localeCompare a b ≤ 0 ∨ refEnv.localeCompare b a ≤ 0 :=
  compareChars_total a.data b.data

theorem refEnv_trans (a b c : String) (hab : refEnv.localeCompare a b ≤ 0)
    (hbc : refEnv.localeCompare b c ≤ 0) : refEnv.localeCompare a c ≤ 0 :=
  compareChars_trans a.data b.data c.data hab hbc

theorem matchesSearch_iff (E : JsEnv) (term : String) (item : PartnerItem) :
    matchesSearch E term item = true ↔
      (E.toLowerCase term).data <:+: (E.toLowerCase item.name).data :=
  includesChars_iff _ _

theorem sortComparator_total (E : JsEnv)
    (htotal : ∀ a b, E.localeCompare a b ≤ 0 ∨ E.localeCompare b a ≤ 0) (m : String)
    (x y : PartnerItem) : sortComparator E m x y ≤ 0 ∨ sortComparator E m y x ≤ 0 := by
  unfold sortComparator
  split_ifs
  · exact htotal y.name x.name
  · exact htotal x.name y.name

theorem sortComparator_trans (E : JsEnv)
    (htrans : ∀ a b c, E.localeCompare a b ≤ 0 → E.localeCompare b c ≤ 0 →
      E.localeCompare a c ≤ 0) (m : String) (x y z : PartnerItem)
    (hxy : sortComparator E m x y ≤ 0) (hyz : sortComparator E m y z ≤ 0) :
    sortComparator E m x z ≤ 0 := by
  unfold sortComparator at *
  split_ifs at *
  · exact htrans _ _ _ hyz hxy
  · exact htrans _ _ _ hxy hyz

theorem applyFiltersAndSort_pairwise (E : JsEnv)
    (htotal : ∀ a b, E.localeCompare a b ≤ 0 ∨ E.localeCompare b a ≤ 0)
    (htrans : ∀ a b c, E.localeCompare a b ≤ 0 → E.localeCompare b c ≤ 0 →
      E.localeCompare a c ≤ 0) (term m : String) (items : List PartnerItem) :
    (applyFiltersAndSort E term m items).Pairwise (fun x y => sortComparator E m x y ≤ 0) :=
  arraySort_pairwise _ (sortComparator_total E htotal m) (sortComparator_trans E htrans m) _

/-! ## List view engine -/

/-- C1: `applyFiltersAndSort` returns exactly the input items whose lower-cased name
contains the lower-cased search term, each as often as it occurs in the input (the result is
a permutation of the filtered input); and when lower-casing the empty string gives the empty
string, the empty search term keeps every item. -/
theorem applyFiltersAndSort_exact_matches (E : JsEnv) (term sortMethod : String)
    (items : List PartnerItem) :
    (applyFiltersAndSort E term sortMethod items).Perm
        (items.filter fun item =>
          decide ((E.toLowerCase term).data <:+: (E.toLowerCase item.name).data))
      ∧ (∀ item, item ∈ applyFiltersAndSort E term sortMethod items ↔
          item ∈ items ∧ (E.toLowerCase term).data <:+: (E.toLowerCase item.name).data)
      ∧ (E.toLowerCase "" = "" → (applyFiltersAndSort E "" sortMethod items).Perm items) := by
  have hfilter : items.filter (matchesSearch E term) = items.filter fun item =>
      decide ((E.toLowerCase term).data <:+: (E.toLowerCase item.name).data) := by
    apply List.filter_congr
    intro item _
    by_cases h : (E.toLowerCase term).data <:+: (E.toLowerCase item.name).data
    · simp [h, (matchesSearch_iff E term item).2 h]
    · have : matchesSearch E term item = false := by
        cases hm : matchesSearch E term item
        · rfl
        · exact absurd ((matchesSearch_iff E term item).1 hm) h
      simp [h, this]
  have hperm : (applyFiltersAndSort E term sortMethod items).Perm
      (items.filter (matchesSearch E term)) := arraySort_perm _ _
  refine ⟨hfilter ▸ hperm, ?_, ?_⟩
  · intro item
    rw [hperm.mem_iff, List.mem_filter, matchesSearch_iff]
  · intro hempty
    have hall : items.filter (matchesSearch E "") = items := by
      rw [List.filter_eq_self]
      intro item _
      rw [matchesSearch_iff, hempty]
      exact List.nil_infix
    have h := arraySort_perm (sortComparator E sortMethod) (items.filter (matchesSearch E ""))
    rw [hall] at h
    simpa [applyFiltersAndSort, hall] using h

/-- Witness of C1 on the reference environment: with the empty search term both items of a
two-item list are kept. -/
theorem applyFiltersAndSort_exact_matches_witness :
    (applyFiltersAndSort refEnv "" "az"
      [sampleItem "1" "Zeta", sampleItem "2" "alpha"]).Perm
      [sampleItem "1" "Zeta", sampleItem "2" "alpha"] :=
  (applyFiltersAndSort_exact_matches refEnv "" "az"
    [sampleItem "1" "Zeta", sampleItem "2" "alpha"]).2.2 rfl

/-- C2: when the name comparison is a total preorder (`localeCompare a b ≤ 0` is total and
transitive), the list returned by `applyFiltersAndSort` is ordered by name: for the sort
method `za` every item is followed only by items whose name is not greater, for every other
sort method only by items whose name is not smaller; in particular each adjacent pair is in
that order. -/
theorem applyFiltersAndSort_ordered (E : JsEnv)
    (htotal : ∀ a b, E.localeCompare a b ≤ 0 ∨ E.localeCompare b a ≤ 0)
    (htrans : ∀ a b c, E.localeCompare a b ≤ 0 → E.localeCompare b c ≤ 0 →
      E.localeCompare a c ≤ 0)
    (term sortMethod : String) (items : List PartnerItem) :
    (sortMethod = "za" →
        (applyFiltersAndSort E term sortMethod items).Pairwise
            (fun x y => E.localeCompare y.name x.name ≤ 0)
          ∧ (applyFiltersAndSort E term sortMethod items).Chain'
            (fun x y => E.localeCompare y.name x.name ≤ 0))
      ∧ (sortMethod ≠ "za" →
        (applyFiltersAndSort E term sortMethod items).Pairwise
            (fun x y => E.localeCompare x.name y.name ≤ 0)
          ∧ (applyFiltersAndSort E term sortMethod items).Chain'
            (fun x y => E.localeCompare x.name y.name ≤ 0)) := by
  have h := applyFiltersAndSort_pairwise E htotal htrans term sortMethod items
  constructor
  · intro hza
    have h2 : (applyFiltersAndSort E term sortMethod items).Pairwise
        (fun x y => E.localeCompare y.name x.name ≤ 0) := by
      refine h.imp ?_
      intro x y hxy
      simpa [sortComparator, hza] using hxy
    exact ⟨h2, h2.chain'⟩
  · intro hza
    have h2 : (applyFiltersAndSort E term sortMethod items).Pairwise
        (fun x y => E.localeCompare x.name y.name ≤ 0) := by
      refine h.imp ?_
      intro x y hxy
      simpa [sortComparator, hza] using hxy
    exact ⟨h2, h2.chain'⟩

/-- Witness of C2 on the reference environment: a descending result. -/
theorem applyFiltersAndSort_ordered_witness :
    (applyFiltersAndSort refEnv "a" "za"
      [sampleItem "1" "Zeta", sampleItem "2" "alpha", sampleItem "3" "Beta",
        sampleItem "4" "xyz"]).Chain'
      (fun x y => refEnv.localeCompare y.name x.name ≤ 0) :=
  ((applyFiltersAndSort_ordered refEnv refEnv_total refEnv_trans "a" "za"
    [sampleItem "1" "Zeta", sampleItem "2" "alpha", sampleItem "3" "Beta",
      sampleItem "4" "xyz"]).1 rfl).2

/-- C3: when the name comparison is a total preorder, `applyFiltersAndSort` is idempotent
under a fixed search term and sort method: applying it to its own result returns that
result, as the same list. -/
theorem applyFiltersAndSort_idempotent (E : JsEnv)
    (htotal : ∀ a b, E.localeCompare a b ≤ 0 ∨ E.localeCompare b a ≤ 0)
    (htrans : ∀ a b c, E.localeCompare a b ≤ 0 → E.localeCompare b c ≤ 0 →
      E.localeCompare a c ≤ 0)
    (term sortMethod : String) (xs : List PartnerItem) :
    applyFiltersAndSort E term sortMethod (applyFiltersAndSort E term sortMethod xs)
      = applyFiltersAndSort E term sortMethod xs := by
  have hsorted := applyFiltersAndSort_pairwise E htotal htrans term sortMethod xs
  have hkeep : (applyFiltersAndSort E term sortMethod xs).filter (matchesSearch E term)
      = applyFiltersAndSort E term sortMethod xs := by
    rw [List.filter_eq_self]
    intro item hitem
    have hperm : (applyFiltersAndSort E term sortMethod xs).Perm
        (xs.filter (matchesSearch E term)) := arraySort_perm _ _
    exact (List.mem_filter.1 (hperm.subset hitem)).2
  show arraySort (sortComparator E sortMethod)
      ((applyFiltersAndSort E term sortMethod xs).filter (matchesSearch E term)) = _
  rw [hkeep]
  exact arraySort_of_pairwise _ _ hsorted

/-- Witness of C3 on the reference environment. -/
theorem applyFiltersAndSort_idempotent_witness :
    applyFiltersAndSort refEnv "a" "az"
        (applyFiltersAndSort refEnv "a" "az"
          [sampleItem "1" "Zeta", sampleItem "2" "alpha", sampleItem "3" "Beta"])
      = applyFiltersAndSort refEnv "a" "az"
          [sampleItem "1" "Zeta", sampleItem "2" "alpha", sampleItem "3" "Beta"] :=
  applyFiltersAndSort_idempotent refEnv refEnv_total refEnv_trans "a" "az"
    [sampleItem "1" "Zeta", sampleItem "2" "alpha", sampleItem "3" "Beta"]

/-! ## Router -/

theorem splitChars_ne_nil (sep : Char) (l : List Char) : splitChars sep l ≠ [] := by
  cases l with
  | nil => simp [splitChars]
  | cons c cs =>
    unfold splitChars
    split_ifs
    · simp
    · split <;> simp

theorem splitChars_eq (sep : Char) (l : List Char) :
    splitChars sep l =
      if sep ∈ l then
        l.takeWhile (· ≠ sep) :: splitChars sep ((l.dropWhile (· ≠ sep)).drop 1)
      else [l] := by
  induction l with
  | nil => simp [splitChars]
  | cons c cs ih =>
    by_cases hc : c = sep
    · subst hc
      simp [splitChars]
    · have hsplit : splitChars sep (c :: cs) =
          match splitChars sep cs with
          | [] => [[c]]
          | seg :: rest => (c :: seg) :: rest := by
        rw [splitChars, if_neg hc]
      rw [hsplit, ih]
      have hne : sep ≠ c := fun h => hc h.symm
      by_cases hmem : sep ∈ cs
      · simp [hmem, hc, List.takeWhile_cons, List.dropWhile_cons]
      · simp [hmem, hc, hne]

theorem split_hash (fragment : String) :
    split (substring1 (navHash ("#" ++ fragment))) '/'
      = (splitChars '/' fragment.data).map String.mk := by
  have hdata : ("#" ++ fragment).data = '#' :: fragment.data := by
    simp [String.data_append]
  have hne : ("#" ++ fragment) ≠ "" := by
    intro h
    have := congrArg String.data h
    rw [hdata] at this
    simp at this
  simp [navHash, orDefault, hne, split, substring1, hdata]

theorem takeWhile_ne_of_not_mem (sep : Char) (l : List Char) (h : sep ∉ l) :
    l.takeWhile (· ≠ sep) = l := by
  rw [List.takeWhile_eq_self_iff]
  intro c hc
  have : c ≠ sep := fun hcs => h (hcs ▸ hc)
  simpa using this

theorem navigate_parse (fragment : String) :
    navPage ("#" ++ fragment) = textBeforeFirstSlash fragment
      ∧ navId ("#" ++ fragment) = textBetweenFirstAndSecondSlash fragment := by
  unfold navPage navId
  rw [split_hash, splitChars_eq]
  unfold textBeforeFirstSlash textBetweenFirstAndSecondSlash
  by_cases hmem : '/' ∈ fragment.data
  · simp only [if_pos hmem]
    rw [splitChars_eq '/' (List.drop 1 _)]
    constructor
    · simp
    · split_ifs with h2
      · simp
      · rw [takeWhile_ne_of_not_mem _ _ h2]
        simp
  · simp only [if_neg hmem]
    constructor
    · rw [takeWhile_ne_of_not_mem _ _ hmem]
      simp
    · simp

/-- C4, as stated, fails: for the fragment `ott/abc/def` the id that `navigate` reads is
`abc`, while the text after the first `/` is `abc/def`. -/
theorem navigate_id_stops_at_second_slash :
    navId ("#" ++ "ott/abc/def") = some "abc"
      ∧ textAfterFirstSlash "ott/abc/def" = some "abc/def"
      ∧ navId ("#" ++ "ott/abc/def") ≠ textAfterFirstSlash "ott/abc/def" := by
  decide

/-- C4, amended: for every fragment, the page that `navigate` reads is the text before the
first `/` and the id is the text between the first `/` and the next `/` (or the end of the
fragment), with no id when the fragment has no `/`; when the fragment is absent
(`location.hash` is empty) the page is `live-tv` with no id. -/
theorem navigate_splits_on_slashes (fragment : String) :
    navPage ("#" ++ fragment) = textBeforeFirstSlash fragment
      ∧ navId ("#" ++ fragment) = textBetweenFirstAndSecondSlash fragment
      ∧ ('/' ∉ fragment.data → navId ("#" ++ fragment) = none)
      ∧ navPage "" = "live-tv" ∧ navId "" = none := by
  refine ⟨(navigate_parse fragment).1, (navigate_parse fragment).2, ?_, by decide, by decide⟩
  intro h
  rw [(navigate_parse fragment).2, textBetweenFirstAndSecondSlash, if_neg h]

/-- Witness of C4 amended: the fragment `about` has no `/` and yields no id. -/
theorem navigate_splits_on_slashes_witness : navId ("#" ++ "about") = none :=
  (navigate_splits_on_slashes "about").2.2.1 (by decide)

theorem find?_id_append (id : String) (l1 l2 : List PartnerItem) (item : PartnerItem)
    (hitem : item.id = id) (hl1 : ∀ d ∈ l1, d.id ≠ id) :
    (l1 ++ item :: l2).find? (fun d => some d.id = some id) = some item := by
  induction l1 with
  | nil => simp [hitem]
  | cons d l1 ih =>
    have hd : d.id ≠ id := hl1 d (List.mem_cons_self d l1)
    rw [List.cons_append, List.find?_cons_of_neg _ (by simpa using hd)]
    exact ih (fun x hx => hl1 x (List.mem_cons_of_mem d hx))

theorem navigate_of_id (E : JsEnv) (s : AppState) (id : String)
    (hid : navId s.locationHash = some id) (hne : id ≠ "") :
    (navigate E s).appContent =
      match (if navPage s.locationHash = "live-tv" then s.tvData else s.ottData).find?
          (fun d => some d.id = some id) with
      | some item => .detail ("#" ++ hashPageType s.locationHash) item
      | none => .notFound := by
  have htruthy : truthy (navId s.locationHash) = true := by simp [hid, truthy, hne]
  rw [navigate]
  simp only [htruthy, if_true]
  rw [hid]
  split <;> rename_i h <;> simp only [h, renderDetailPage]

/-- C5: when the id segment that `navigate` reads from the fragment is present (defined and
not empty, the test `if (id)`), the lookup goes to the tv collection for the page `live-tv`
and to the ott collection for every other page; the detail view of the first item of that
collection whose id equals the segment is rendered, and the not-found view is rendered if
and only if no item of that collection has the id. -/
theorem navigate_id_lookup (E : JsEnv) (s : AppState) (id : String)
    (hid : navId s.locationHash = some id) (hne : id ≠ "") :
    (∀ l1 item l2,
        (if navPage s.locationHash = "live-tv" then s.tvData else s.ottData)
            = l1 ++ item :: l2 →
          item.id = id → (∀ d ∈ l1, d.id ≠ id) →
          (navigate E s).appContent = .detail ("#" ++ hashPageType s.locationHash) item)
      ∧ ((navigate E s).appContent = .notFound ↔
          ∀ item ∈ (if navPage s.locationHash = "live-tv" then s.tvData else s.ottData),
            item.id ≠ id) := by
  rw [navigate_of_id E s id hid hne]
  constructor
  · intro l1 item l2 hsrc hitem hl1
    rw [hsrc, find?_id_append id l1 l2 item hitem hl1]
  · cases hfind : (if navPage s.locationHash = "live-tv" then s.tvData else s.ottData).find?
        (fun d => some d.id = some id) with
    | none =>
      have hall := List.find?_eq_none.1 hfind
      simp only [true_iff]
      intro item hitem heq
      exact hall item hitem (by simp [heq])
    | some item =>
      have hmem := List.mem_of_find?_eq_some hfind
      have hp := List.find?_some hfind
      constructor
      · intro h
        cases h
      · intro h
        exact absurd (by simpa using hp) (h item hmem)

/-- Witness of C5: the fragment `live-tv/abc123` with `abc123` second in the tv collection. -/
theorem navigate_id_lookup_witness :
    (navigate refEnv (sampleState "#live-tv/abc123"
        [sampleItem "x1" "One", sampleItem "abc123" "Two"] [] [])).appContent
      = .detail "#live-tv" (sampleItem "abc123" "Two") :=
  (navigate_id_lookup refEnv (sampleState "#live-tv/abc123"
      [sampleItem "x1" "One", sampleItem "abc123" "Two"] [] []) "abc123"
    (by decide) (by decide)).1 [sampleItem "x1" "One"] (sampleItem "abc123" "Two") []
    (by decide) (by decide) (by decide)

/-! ## Offline cache worker -/

theorem cachesMatch_eq_some {Req Resp : Type} (reqMatches : Req → Req → Bool)
    (caches : CacheStorage Req Resp) (request : Req) (c : Resp)
    (h : cachesMatch reqMatches caches request = some c) :
    ∃ store ∈ caches, ∃ e ∈ store.2, reqMatches request e.1 = true ∧ e.2 = c := by
  unfold cachesMatch at h
  obtain ⟨store, hstore, hsome⟩ := List.exists_of_findSome?_eq_some h
  cases hfind : store.2.find? (fun e => reqMatches request e.1) with
  | none => simp [hfind] at hsome
  | some e =>
    rw [hfind] at hsome
    refine ⟨store, hstore, e, List.mem_of_find?_eq_some hfind, ?_, ?_⟩
    · exact @List.find?_some _ (fun e : Req × Resp => reqMatches request e.1) _ _ hfind
    · simpa using hsome

theorem cachesMatch_eq_none {Req Resp : Type} (reqMatches : Req → Req → Bool)
    (caches : CacheStorage Req Resp) (request : Req) :
    cachesMatch reqMatches caches request = none ↔
      ∀ store ∈ caches, ∀ e ∈ store.2, reqMatches request e.1 = false := by
  unfold cachesMatch
  rw [List.findSome?_eq_none_iff]
  constructor
  · intro h store hstore e he
    have := h store hstore
    rw [Option.map_eq_none', List.find?_eq_none] at this
    simpa using this e he
  · intro h store hstore
    rw [Option.map_eq_none', List.find?_eq_none]
    intro e he
    simp [h store hstore e he]

/-- C6: the fetch handler is network-first with cache fallback.  When the network attempt
resolves, the page receives the network response whatever the cache holds; when it rejects
and some store has a matching entry, the page receives the response of a matching entry,
the one `caches.match` returns; when it rejects and no entry matches, the promise resolves
to `undefined` and the page receives a network error. -/
theorem fetchListener_network_first {Req Resp Err : Type} (reqMatches : Req → Req → Bool)
    (network : Req → Except Err Resp) (caches : CacheStorage Req Resp) (request : Req) :
    (∀ r, network request = .ok r →
        respondWith (fetchListener reqMatches network caches request) = .response r)
      ∧ (∀ err, network request = .error err →
          (∃ store ∈ caches, ∃ e ∈ store.2, reqMatches request e.1 = true) →
          ∃ c, cachesMatch reqMatches caches request = some c
            ∧ (∃ store ∈ caches, ∃ e ∈ store.2, reqMatches request e.1 = true ∧ e.2 = c)
            ∧ respondWith (fetchListener reqMatches network caches request) = .response c)
      ∧ (∀ err, network request = .error err →
          (∀ store ∈ caches, ∀ e ∈ store.2, reqMatches request e.1 = false) →
          fetchListener reqMatches network caches request = .ok none
            ∧ respondWith (fetchListener reqMatches network caches request) = .networkError) := by
  refine ⟨?_, ?_, ?_⟩
  · intro r hr
    simp [fetchListener, hr, respondWith]
  · intro err herr hex
    cases hm : cachesMatch reqMatches caches request with
    | none =>
      obtain ⟨store, hstore, e, he, hmatch⟩ := hex
      have := (cachesMatch_eq_none reqMatches caches request).1 hm store hstore e he
      rw [hmatch] at this
      cases this
    | some c =>
      exact ⟨c, rfl, cachesMatch_eq_some reqMatches caches request c hm, by
        simp [fetchListener, herr, hm, respondWith]⟩
  · intro err herr hnone
    have hm := (cachesMatch_eq_none reqMatches caches request).2 hnone
    simp [fetchListener, herr, hm, respondWith]

/-- Witness of C6: network unreachable and the request not in the cache. -/
theorem fetchListener_network_first_witness :
    respondWith (fetchListener (fun a b : String => a == b)
        (fun _ => (Except.error () : Except Unit String))
        [(CACHE_NAME, [("index.html", "cached page")])] "style.css") = .networkError :=
  ((fetchListener_network_first (fun a b : String => a == b)
      (fun _ => (Except.error () : Except Unit String))
      [(CACHE_NAME, [("index.html", "cached page")])] "style.css").2.2 () rfl
    (by decide)).2

theorem foldl_cachesDelete {Req Resp : Type} (cacheName : String) (names : List String)
    (cs : CacheStorage Req Resp) :
    names.foldl
        (fun cs name => if [cacheName].contains name then cs else cachesDelete cs name) cs
      = cs.filter (fun store => decide (store.1 = cacheName ∨ store.1 ∉ names)) := by
  induction names generalizing cs with
  | nil => simp
  | cons n ns ih =>
    rw [List.foldl_cons, ih]
    by_cases hn : n = cacheName
    · subst hn
      simp only [List.contains_cons, beq_self_eq_true, Bool.true_or, if_true]
      apply List.filter_congr
      intro store _
      by_cases h : store.1 = n <;> simp [h]
    · have hc : [cacheName].contains n = false := by
        simp [hn]
      simp only [hc, Bool.false_eq_true, if_false, cachesDelete, List.filter_filter]
      apply List.filter_congr
      intro store _
      by_cases h : store.1 = cacheName
      · have : store.1 ≠ n := fun h2 => hn (h2 ▸ h)
        simp [h, this]
        intro h3
        exact absurd (h ▸ h3.symm) hn
      · by_cases h2 : store.1 = n <;> simp [h, h2, hn]

theorem activateListener_eq_filter {Req Resp : Type} (cacheName : String)
    (caches : CacheStorage Req Resp) :
    activateListener cacheName caches = caches.filter (fun store => store.1 = cacheName) := by
  unfold activateListener
  simp only []
  rw [foldl_cachesDelete]
  apply List.filter_congr
  intro store hstore
  have : store.1 ∈ cachesKeys caches := List.mem_map_of_mem _ hstore
  simp [this]

/-- C7: activation deletes every store whose name differs from the current cache name and
no store whose name equals it: the names that remain are exactly the existing names equal
to the current name, and the stores that remain are the existing stores of that name; with
the current name `v2` and the stores `v1` and `v2`, `v1` is deleted and `v2` retained; the
same holds for the name `CACHE_NAME` of the source. -/
theorem activateListener_keeps_current {Req Resp : Type} (cacheName : String)
    (caches : CacheStorage Req Resp) :
    cachesKeys (activateListener cacheName caches)
        = (cachesKeys caches).filter (fun name => name = cacheName)
      ∧ (∀ store, store ∈ activateListener cacheName caches ↔
          store ∈ caches ∧ store.1 = cacheName)
      ∧ (∀ c1 c2 : List (Req × Resp),
          activateListener "v2" [("v1", c1), ("v2", c2)] = [("v2", c2)])
      ∧ cachesKeys (activateListener CACHE_NAME caches)
        = (cachesKeys caches).filter (fun name => name = "retroflix-v1") := by
  refine ⟨?_, ?_, ?_, ?_⟩
  · rw [activateListener_eq_filter]
    simp [cachesKeys, List.filter_map, Function.comp_def]
  · intro store
    rw [activateListener_eq_filter]
    simp [List.mem_filter]
  · intro c1 c2
    rw [activateListener_eq_filter]
    simp [List.filter_cons]
  · rw [activateListener_eq_filter]
    simp [cachesKeys, List.filter_map, Function.comp_def, CACHE_NAME]

/-! ## `JSON.stringify` loses nothing -/

theorem hexValue_hexDigit : ∀ k < 16, hexValue (hexDigit k) = k := by decide

theorem unquoteJSONChar_quoteJSONChar (c : Char) (r : List Char) :
    unquoteJSONChar (quoteJSONChar c ++ r) = some (c, r) := by
  unfold quoteJSONChar
  split_ifs with h1 h2 h3 h4 h5 h6 h7 h8
  · subst h1; rfl
  · subst h2; rfl
  · subst h3; rfl
  · subst h4; rfl
  · subst h5; rfl
  · subst h6; rfl
  · subst h7; rfl
  · have hu : unquoteJSONChar ([backslash, 'u', '0', '0', hexDigit (c.toNat / 16),
        hexDigit (c.toNat % 16)] ++ r)
        = some (Char.ofNat (16 * hexValue (hexDigit (c.toNat / 16))
            + hexValue (hexDigit (c.toNat % 16))), r) := rfl
    rw [hu, hexValue_hexDigit _ (by omega), hexValue_hexDigit _ (by omega),
      Nat.div_add_mod, Char.ofNat_toNat]
  · simp [unquoteJSONChar, h2]

theorem quoteJSONChar_cancel (c d : Char) (r r1 : List Char)
    (h : quoteJSONChar c ++ r = quoteJSONChar d ++ r1) : c = d ∧ r = r1 := by
  have h2 := congrArg unquoteJSONChar h
  rw [unquoteJSONChar_quoteJSONChar, unquoteJSONChar_quoteJSONChar] at h2
  simpa using h2

theorem quoteJSONChar_ne_dquote (c : Char) (r r1 : List Char) :
    quoteJSONChar c ++ r ≠ dquote :: r1 := by
  intro h
  have h2 := congrArg unquoteJSONChar h
  rw [unquoteJSONChar_quoteJSONChar] at h2
  have h3 : unquoteJSONChar (dquote :: r1) = some (dquote, r1) := rfl
  rw [h3] at h2
  have hc : c = dquote := by simpa using congrArg (fun o => o.map Prod.fst) h2
  subst hc
  have h4 : quoteJSONChar dquote ++ r = backslash :: dquote :: r := rfl
  rw [h4] at h
  exact absurd (List.cons.inj h).1 (by decide)

theorem quoteJSONChars_cancel (l l1 r r1 : List Char)
    (h : quoteJSONChars l ++ dquote :: r = quoteJSONChars l1 ++ dquote :: r1) :
    l = l1 ∧ r = r1 := by
  induction l generalizing l1 with
  | nil =>
    cases l1 with
    | nil => exact ⟨rfl, by simpa [quoteJSONChars] using h⟩
    | cons d l1 =>
      simp only [quoteJSONChars, List.nil_append, List.append_assoc] at h
      exact absurd h.symm (quoteJSONChar_ne_dquote _ _ _)
  | cons c l ih =>
    cases l1 with
    | nil =>
      simp only [quoteJSONChars, List.nil_append, List.append_assoc] at h
      exact absurd h (quoteJSONChar_ne_dquote _ _ _)
    | cons d l1 =>
      simp only [quoteJSONChars, List.append_assoc] at h
      obtain ⟨hcd, hrest⟩ := quoteJSONChar_cancel _ _ _ _ h
      obtain ⟨hl, hr⟩ := ih l1 hrest
      exact ⟨by rw [hcd, hl], hr⟩

theorem quoteJSONString_cancel (s s1 : String) (r r1 : List Char)
    (h : quoteJSONString s ++ r = quoteJSONString s1 ++ r1) : s = s1 ∧ r = r1 := by
  simp only [quoteJSONString, List.cons_append, List.append_assoc, List.singleton_append,
    List.cons.injEq, true_and] at h
  obtain ⟨hd, hr⟩ := quoteJSONChars_cancel _ _ _ _ h
  exact ⟨String.ext hd, hr⟩

theorem stringifyBool_cancel (b b1 : Bool) (r r1 : List Char)
    (h : stringifyBool b ++ r = stringifyBool b1 ++ r1) : b = b1 ∧ r = r1 := by
  cases b <;> cases b1 <;> simp [stringifyBool] at h ⊢ <;> exact h

theorem stringifyValue_cancel (v v1 : PropertyValue) (r r1 : List Char)
    (h : stringifyValue v ++ r = stringifyValue v1 ++ r1) : v = v1 ∧ r = r1 := by
  cases v with
  | str s =>
    cases v1 with
    | str s1 =>
      obtain ⟨hs, hr⟩ := quoteJSONString_cancel s s1 r r1 h
      exact ⟨by rw [hs], hr⟩
    | bool b1 =>
      cases b1 <;> exact absurd (List.cons.inj h).1 (by decide)
  | bool b =>
    cases v1 with
    | str s1 =>
      cases b <;> exact absurd (List.cons.inj h).1 (by decide)
    | bool b1 =>
      obtain ⟨hb, hr⟩ := stringifyBool_cancel b b1 r r1 h
      exact ⟨by rw [hb], hr⟩

theorem jsonKey_cancel (k k1 : NotificationKey) (r r1 : List Char)
    (h : jsonKey (keyName k) ++ r = jsonKey (keyName k1) ++ r1) : k = k1 ∧ r = r1 := by
  cases k <;> cases k1 <;>
    first
    | exact ⟨rfl, List.append_cancel_left h⟩
    | exact absurd (List.cons.inj (List.cons.inj h).2).1 (by decide)
    | exact absurd (List.cons.inj (List.cons.inj (List.cons.inj h).2).2).1 (by decide)

theorem stringifyProperties_cons (n : NotificationRecord) (k : NotificationKey)
    (ks : List NotificationKey) (r : List Char) :
    stringifyProperties n (k :: ks) ++ r =
      jsonKey (keyName k) ++ (stringifyValue (propertyValue n k) ++ (match ks with
        | [] => r
        | k1 :: ks1 => ',' :: (stringifyProperties n (k1 :: ks1) ++ r))) := by
  cases ks with
  | nil => simp [stringifyProperties]
  | cons k1 ks1 => simp [stringifyProperties]

theorem stringifyProperties_head (n : NotificationRecord) (k : NotificationKey)
    (ks : List NotificationKey) (r : List Char) :
    ∃ t, stringifyProperties n (k :: ks) ++ r = dquote :: t := by
  cases ks with
  | nil => exact ⟨_, rfl⟩
  | cons k1 ks1 => exact ⟨_, rfl⟩

theorem stringifyProperties_cancel (n n1 : NotificationRecord) (ks ks1 : List NotificationKey)
    (r r1 : List Char)
    (h : stringifyProperties n ks ++ Char.ofNat 125 :: r
      = stringifyProperties n1 ks1 ++ Char.ofNat 125 :: r1) :
    ks = ks1 ∧ r = r1 ∧ ∀ k ∈ ks, propertyValue n k = propertyValue n1 k := by
  induction ks generalizing ks1 with
  | nil =>
    cases ks1 with
    | nil => exact ⟨rfl, by simpa [stringifyProperties] using h, by simp⟩
    | cons k1 ks1 =>
      obtain ⟨t, ht⟩ := stringifyProperties_head n1 k1 ks1 (Char.ofNat 125 :: r1)
      rw [ht] at h
      exact absurd (List.cons.inj h).1 (by decide)
  | cons k ks ih =>
    cases ks1 with
    | nil =>
      obtain ⟨t, ht⟩ := stringifyProperties_head n k ks (Char.ofNat 125 :: r)
      rw [ht] at h
      exact absurd (List.cons.inj h).1 (by decide)
    | cons k1 ks1 =>
      rw [stringifyProperties_cons, stringifyProperties_cons] at h
      obtain ⟨hk, h⟩ := jsonKey_cancel _ _ _ _ h
      subst hk
      obtain ⟨hv, hrest⟩ := stringifyValue_cancel _ _ _ _ h
      cases ks with
      | nil =>
        cases ks1 with
        | nil =>
          refine ⟨rfl, (List.cons.inj hrest).2, ?_⟩
          intro k2 hk2
          rw [List.mem_singleton.1 hk2]
          exact hv
        | cons k2 ks2 => exact absurd (List.cons.inj hrest).1 (by decide)
      | cons k2 ks2 =>
        cases ks1 with
        | nil => exact absurd (List.cons.inj hrest).1 (by decide)
        | cons k3 ks3 =>
          obtain ⟨hks, hr, hall⟩ := ih (k3 :: ks3) (List.cons.inj hrest).2
          refine ⟨by rw [hks], hr, ?_⟩
          intro k4 hk4
          rcases List.mem_cons.1 hk4 with rfl | hk4
          · exact hv
          · exact hall k4 hk4

theorem stringifyRecord_cancel (n n1 : NotificationRecord) (r r1 : List Char)
    (h : stringifyRecord n ++ r = stringifyRecord n1 ++ r1) : n = n1 ∧ r = r1 := by
  simp only [stringifyRecord, List.cons_append, List.append_assoc, List.singleton_append,
    List.cons.injEq, true_and] at h
  obtain ⟨hkeys, hr, hall⟩ := stringifyProperties_cancel n n1 _ _ r r1 h
  refine ⟨?_, hr⟩
  have hmem : ∀ k, k ∈ n.keys := fun k => n.keys_perm.mem_iff.2 (by cases k <;> decide)
  have h1 := hall .id (hmem _)
  have h2 := hall .title (hmem _)
  have h3 := hall .message (hmem _)
  have h4 := hall .type (hmem _)
  have h5 := hall .isRead (hmem _)
  simp only [propertyValue, PropertyValue.str.injEq, PropertyValue.bool.injEq] at h1 h2 h3 h4 h5
  cases n
  cases n1
  simp_all

theorem stringifyElements_head (n : NotificationRecord) (l : List NotificationRecord)
    (r : List Char) : ∃ t, stringifyElements (n :: l) ++ r = Char.ofNat 123 :: t := by
  cases l with
  | nil => exact ⟨_, rfl⟩
  | cons m l1 => exact ⟨_, rfl⟩

theorem stringifyElements_cons (n : NotificationRecord) (l : List NotificationRecord)
    (r : List Char) :
    stringifyElements (n :: l) ++ r =
      stringifyRecord n ++ (match l with
        | [] => r
        | m :: l1 => ',' :: (stringifyElements (m :: l1) ++ r)) := by
  cases l with
  | nil => rfl
  | cons m l1 => simp [stringifyElements]

theorem stringifyElements_cancel (l l1 : List NotificationRecord) (r r1 : List Char)
    (h : stringifyElements l ++ ']' :: r = stringifyElements l1 ++ ']' :: r1) :
    l = l1 ∧ r = r1 := by
  induction l generalizing l1 with
  | nil =>
    cases l1 with
    | nil => exact ⟨rfl, by simpa [stringifyElements] using h⟩
    | cons n1 l1 =>
      obtain ⟨t, ht⟩ := stringifyElements_head n1 l1 (']' :: r1)
      rw [ht] at h
      exact absurd (List.cons.inj h).1 (by decide)
  | cons n l ih =>
    cases l1 with
    | nil =>
      obtain ⟨t, ht⟩ := stringifyElements_head n l (']' :: r)
      rw [ht] at h
      exact absurd (List.cons.inj h).1 (by decide)
    | cons n1 l1 =>
      rw [stringifyElements_cons, stringifyElements_cons] at h
      obtain ⟨hn, hrest⟩ := stringifyRecord_cancel _ _ _ _ h
      subst hn
      cases l with
      | nil =>
        cases l1 with
        | nil => exact ⟨rfl, by simpa using hrest⟩
        | cons m1 l2 => exact absurd (List.cons.inj hrest).1 (by decide)
      | cons m l2 =>
        cases l1 with
        | nil => exact absurd (List.cons.inj hrest).1 (by decide)
        | cons m1 l3 =>
          obtain ⟨hl, hr⟩ := ih (m1 :: l3) (List.cons.inj hrest).2
          exact ⟨by rw [hl], hr⟩

theorem jsonStringify_injective : Function.Injective jsonStringify := by
  intro l l1 h
  have hdata := congrArg String.data h
  simp only [jsonStringify, List.cons.injEq, true_and] at hdata
  exact (stringifyElements_cancel l l1 [] [] hdata).1

/-! ## Notification centre -/

theorem renderNotifications_data (s : AppState) :
    (renderNotifications s).notificationData = s.notificationData := by
  unfold renderNotifications updateNotificationDot
  simp only []
  split_ifs <;> rfl

theorem renderNotifications_dot (s : AppState) :
    (renderNotifications s).notificationDot = s.notificationData.any fun n => !n.isRead := by
  unfold renderNotifications updateNotificationDot
  simp only []
  split_ifs <;> rfl

theorem renderNotifications_list (s : AppState) :
    (renderNotifications s).notificationList =
      if s.notificationData = [] then .placeholder
      else .items (s.notificationData.map notificationItemView) := by
  unfold renderNotifications updateNotificationDot
  simp only [List.length_eq_zero]
  split_ifs <;> rfl

theorem dotInvariant_renderNotifications (s : AppState) :
    dotInvariant (renderNotifications s) := by
  unfold dotInvariant
  rw [renderNotifications_dot, renderNotifications_data, List.any_eq_true]
  simp

theorem renderItems_notifications (s : AppState) (items : List PartnerItem) :
    (renderItems s items).notificationData = s.notificationData
      ∧ (renderItems s items).notificationDot = s.notificationDot
      ∧ (renderItems s items).notificationList = s.notificationList := by
  unfold renderItems
  split
  · simp only []
    split_ifs <;> exact ⟨rfl, rfl, rfl⟩
  · exact ⟨rfl, rfl, rfl⟩

theorem renderPartnerPage_notifications (E : JsEnv) (s : AppState) (items : List PartnerItem)
    (title pageType : String) :
    (renderPartnerPage E s items title pageType).notificationData = s.notificationData
      ∧ (renderPartnerPage E s items title pageType).notificationDot = s.notificationDot
      ∧ (renderPartnerPage E s items title pageType).notificationList
        = s.notificationList := by
  unfold renderPartnerPage
  simp only []
  refine ⟨?_, ?_, ?_⟩
  · rw [(renderItems_notifications _ _).1]
  · rw [(renderItems_notifications _ _).2.1]
  · rw [(renderItems_notifications _ _).2.2]

theorem navigate_notifications (E : JsEnv) (s : AppState) :
    (navigate E s).notificationData = s.notificationData
      ∧ (navigate E s).notificationDot = s.notificationDot
      ∧ (navigate E s).notificationList = s.notificationList := by
  unfold navigate
  simp only []
  split_ifs
  all_goals first
    | exact ⟨rfl, rfl, rfl⟩
    | exact renderPartnerPage_notifications _ _ _ _ _
    | (split <;> exact ⟨rfl, rfl, rfl⟩)

theorem dotInvariant_congr (s t : AppState) (hd : t.notificationData = s.notificationData)
    (hdot : t.notificationDot = s.notificationDot) (h : dotInvariant s) : dotInvariant t := by
  unfold dotInvariant at *
  rw [hd, hdot]
  exact h

theorem findIndex_eq_none {α : Type} (p : α → Bool) (l : List α) :
    findIndex p l = none ↔ ∀ a ∈ l, p a = false := by
  induction l with
  | nil => simp [findIndex]
  | cons a l ih =>
    unfold findIndex
    by_cases ha : p a = true
    · simp [ha]
    · simp [ha, ih]

theorem findIndex_eq_some {α : Type} (p : α → Bool) (l : List α) (i : Nat)
    (h : findIndex p l = some i) :
    ∃ l1 a l2, l = l1 ++ a :: l2 ∧ p a = true ∧ (∀ b ∈ l1, p b = false) ∧ i = l1.length := by
  induction l generalizing i with
  | nil => simp [findIndex] at h
  | cons a l ih =>
    unfold findIndex at h
    by_cases ha : p a = true
    · simp only [ha, if_true, Option.some.injEq] at h
      exact ⟨[], a, l, rfl, ha, by simp, by simp [← h]⟩
    · simp only [ha, Bool.false_eq_true, if_false, Option.map_eq_some'] at h
      obtain ⟨j, hj, hij⟩ := h
      obtain ⟨l1, b, l2, hl, hb, hl1, hjl⟩ := ih j hj
      refine ⟨a :: l1, b, l2, by rw [hl, List.cons_append], hb, ?_, by simp [← hij, hjl]⟩
      intro c hc
      rcases List.mem_cons.1 hc with rfl | hc
      · simpa using ha
      · exact hl1 c hc

theorem findIndex_append {α : Type} (p : α → Bool) (l1 l2 : List α) (a : α)
    (ha : p a = true) (hl1 : ∀ b ∈ l1, p b = false) :
    findIndex p (l1 ++ a :: l2) = some l1.length := by
  induction l1 with
  | nil => simp [findIndex, ha]
  | cons b l1 ih =>
    have hb : p b = false := hl1 b (List.mem_cons_self b l1)
    have := ih (fun c hc => hl1 c (List.mem_cons_of_mem b hc))
    simp [findIndex, hb, this]

theorem eraseIdx_append_cons {α : Type} (l1 l2 : List α) (a : α) :
    (l1 ++ a :: l2).eraseIdx l1.length = l1 ++ l2 := by
  induction l1 with
  | nil => rfl
  | cons b l1 ih => simp [List.eraseIdx, ih]

theorem setIsRead_any (l1 l2 : List NotificationRecord) (n : NotificationRecord) :
    setIsRead l1.length (l1 ++ n :: l2) = l1 ++ { n with isRead := true } :: l2 := by
  induction l1 with
  | nil => rfl
  | cons b l1 ih => simp [setIsRead, ih]

theorem onmessage_of_eq (s : AppState) (newNotifications : List NotificationRecord)
    (h : newNotifications = s.notificationData) : onmessage s newNotifications = s := by
  unfold onmessage
  rw [h]
  simp

theorem onmessage_of_ne (s : AppState) (newNotifications : List NotificationRecord)
    (h : newNotifications ≠ s.notificationData) :
    onmessage s newNotifications =
      { s with
        notificationData := newNotifications
        notificationDot := newNotifications.any fun n => !n.isRead
        notificationList :=
          if newNotifications = [] then .placeholder
          else .items (newNotifications.map notificationItemView)
        notificationCenterShow := true } := by
  have hne : jsonStringify newNotifications ≠ jsonStringify s.notificationData :=
    fun heq => h (jsonStringify_injective heq)
  unfold onmessage
  rw [if_pos hne]
  unfold renderNotifications updateNotificationDot
  simp only [List.length_eq_zero]
  split_ifs <;> rfl

theorem eq_of_values_of_keys (l l1 : List NotificationRecord)
    (hv : l.map recordValues = l1.map recordValues)
    (hk : l.map (fun n => n.keys) = l1.map (fun n => n.keys)) : l = l1 := by
  induction l generalizing l1 with
  | nil =>
    cases l1 with
    | nil => rfl
    | cons n1 l1 => simp at hv
  | cons n l ih =>
    cases l1 with
    | nil => simp at hv
    | cons n1 l1 =>
      simp only [List.map_cons, List.cons.injEq] at hv hk
      have hl := ih l1 hv.2 hk.2
      have hn : n = n1 := by
        have hvals := hv.1
        have hkeys := hk.1
        cases n
        cases n1
        simp only [recordValues, Prod.mk.injEq] at hvals
        simp_all
      rw [hn, hl]

/-- C8, as stated, fails for a received list that is structurally equal to the held list
but whose records hold their properties in another order: `JSON.stringify` writes the
properties in the order of each object, the two serialisations differ, and the handler
replaces the held list and shows the overlay. -/
theorem onmessage_replaces_on_reordered_keys :
    structurallyEqual [reorderedNotification "1" false] [sampleNotification "1" false]
      ∧ onmessage (sampleState "" [] [] [sampleNotification "1" false])
          [reorderedNotification "1" false]
        ≠ sampleState "" [] [] [sampleNotification "1" false]
      ∧ (onmessage (sampleState "" [] [] [sampleNotification "1" false])
          [reorderedNotification "1" false]).notificationData
        = [reorderedNotification "1" false]
      ∧ (sampleState "" [] [] [sampleNotification "1" false]).notificationCenterShow = false
      ∧ (onmessage (sampleState "" [] [] [sampleNotification "1" false])
          [reorderedNotification "1" false]).notificationCenterShow = true := by
  decide

/-- C8, amended: the comparison is that of the serialisations, which tells two lists apart
exactly when they differ in a property value or in the order in which a record holds its
properties.  When the received list equals the held list, property order included, the
whole state (held list, rendered list, overlay visibility and all the rest) is left
unchanged; when it differs in either way, the held list becomes exactly the received list,
the list and the dot are rendered from it and the overlay is shown, nothing else changing.
So the list is replaced, re-rendered and the overlay shown only if the received list
differs from the held one in a value or in a property order. -/
theorem onmessage_replaces_unless_identical (s : AppState)
    (newNotifications : List NotificationRecord) :
    (newNotifications = s.notificationData ↔
        structurallyEqual newNotifications s.notificationData
          ∧ newNotifications.map (fun n => n.keys)
            = s.notificationData.map (fun n => n.keys))
      ∧ (jsonStringify newNotifications = jsonStringify s.notificationData ↔
        newNotifications = s.notificationData)
      ∧ (newNotifications = s.notificationData → onmessage s newNotifications = s)
      ∧ (newNotifications ≠ s.notificationData →
          onmessage s newNotifications =
            { s with
              notificationData := newNotifications
              notificationDot := newNotifications.any fun n => !n.isRead
              notificationList :=
                if newNotifications = [] then .placeholder
                else .items (newNotifications.map notificationItemView)
              notificationCenterShow := true })
      ∧ (onmessage s newNotifications ≠ s → newNotifications ≠ s.notificationData) :=
  ⟨⟨fun h => by rw [h]; exact ⟨rfl, rfl⟩,
      fun h => eq_of_values_of_keys _ _ h.1 h.2⟩,
    ⟨fun h => jsonStringify_injective h, fun h => by rw [h]⟩,
    onmessage_of_eq s newNotifications, onmessage_of_ne s newNotifications,
    fun hchanged heq => hchanged (onmessage_of_eq s newNotifications heq)⟩

/-- Witness of C8 amended: a duplicate push, property order included, leaves the state as it
is, and a push of a list with another record replaces the held list. -/
theorem onmessage_replaces_unless_identical_witness :
    onmessage (sampleState "" [] [] [sampleNotification "1" false])
        [sampleNotification "1" false]
      = sampleState "" [] [] [sampleNotification "1" false]
      ∧ (onmessage (sampleState "" [] [] [sampleNotification "1" false])
          [sampleNotification "2" true]).notificationData = [sampleNotification "2" true] :=
  ⟨(onmessage_replaces_unless_identical (sampleState "" [] [] [sampleNotification "1" false])
      [sampleNotification "1" false]).2.2.1 rfl,
    congrArg AppState.notificationData
      ((onmessage_replaces_unless_identical
        (sampleState "" [] [] [sampleNotification "1" false])
        [sampleNotification "2" true]).2.2.2.1 (by decide))⟩

/-- C9, as stated, fails at the initial load: `main()` stores the list of the content bundle
without updating the dot, so the dot keeps the state the markup gave it.  With the dot
hidden at first and one unread record loaded the dot is not visible; with the dot shown at
first and an empty list loaded it is visible. -/
theorem initialLoad_leaves_dot :
    ¬ dotInvariant (runOp refEnv (initialState [] "" false)
        (.initialLoad [sampleNotification "1" false]))
      ∧ ¬ dotInvariant (runOp refEnv (initialState [] "" true) (.initialLoad [])) := by
  decide

theorem dotInvariant_pageDataLoaded (E : JsEnv) (s : AppState) (tv ott : List PartnerItem) :
    dotInvariant (fetchPageDataDone E s (some (tv, ott))) := by
  unfold fetchPageDataDone
  exact dotInvariant_congr _ _ (navigate_notifications E _).1 (navigate_notifications E _).2.1
    (dotInvariant_renderNotifications _)

theorem dotInvariant_onmessage_of_ne (s : AppState) (newNotifications : List NotificationRecord)
    (h : newNotifications ≠ s.notificationData) :
    dotInvariant (onmessage s newNotifications) := by
  rw [onmessage_of_ne s newNotifications h]
  unfold dotInvariant
  simp [List.any_eq_true]

theorem dotInvariant_click (s : AppState) (e : NotificationClick)
    (hclass : ¬ ("mark-read" ∈ e.classList ∧ "dismiss" ∈ e.classList))
    (h : dotInvariant s) : dotInvariant (handleNotificationInteraction s e) := by
  unfold handleNotificationInteraction
  split
  · exact h
  · split
    · exact h
    · by_cases hd : e.classList.contains "dismiss" = true
      · have hm : e.classList.contains "mark-read" = false := by
          cases hc : e.classList.contains "mark-read"
          · rfl
          · exact absurd ⟨by simpa using hc, by simpa using hd⟩ hclass
        simp only [hm, hd, Bool.false_eq_true, if_false, if_true]
        exact h
      · simp only [hd, if_false]
        exact dotInvariant_renderNotifications _

/-- C9, amended: the dot is visible exactly when at least one held record has `isRead` false
in the state after the first render of the notifications (once the page data has loaded),
after a push that replaces the list, after mark-read on a held record, after a completed
dismiss and after clear-all, whatever the state before; every operation other than the
initial load keeps the property once it holds (for clicks: on a target that is not both a
mark-read and a dismiss button); and for the list with the one unread record of id `1` the
dot is visible once rendered and hidden after the mark-read action on record `1`. -/
theorem dot_tracks_unread (E : JsEnv) (s : AppState) :
    (∀ tv ott, dotInvariant (runOp E s (.pageDataLoaded tv ott)))
      ∧ (∀ newNotifications, newNotifications ≠ s.notificationData →
          dotInvariant (runOp E s (.push newNotifications)))
      ∧ (∀ id, (∃ n ∈ s.notificationData, n.id = id) →
          dotInvariant (runOp E s (.click ⟨some id, ["mark-read"]⟩)))
      ∧ (∀ id, dotInvariant (runOp E s (.animationEnd id)))
      ∧ dotInvariant (runOp E s .clearAll)
      ∧ (∀ op, (∀ notifications, op ≠ .initialLoad notifications) →
          (∀ e, op = .click e →
            ¬ ("mark-read" ∈ e.classList ∧ "dismiss" ∈ e.classList)) →
          dotInvariant s → dotInvariant (runOp E s op))
      ∧ (∀ title message type keys hkeys,
          s.notificationData = [⟨"1", title, message, type, false, keys, hkeys⟩] →
          (renderNotifications s).notificationDot = true
            ∧ (runOp E (renderNotifications s)
                (.click ⟨some "1", ["mark-read"]⟩)).notificationDot = false) := by
  refine ⟨fun tv ott => dotInvariant_pageDataLoaded E s tv ott,
    fun n hn => dotInvariant_onmessage_of_ne s n hn, ?_,
    fun id => dotInvariant_renderNotifications _,
    dotInvariant_renderNotifications _, ?_, ?_⟩
  · intro id hex
    show dotInvariant (handleNotificationInteraction s ⟨some id, ["mark-read"]⟩)
    unfold handleNotificationInteraction
    cases hfind : findIndex (fun n => decide (n.id = id)) s.notificationData with
    | none =>
      obtain ⟨n, hn, hid⟩ := hex
      have := (findIndex_eq_none _ _).1 hfind n hn
      simp [hid] at this
    | some i =>
      have h1 : ["mark-read"].contains "mark-read" = true := by decide
      have h2 : ["mark-read"].contains "dismiss" = false := by decide
      simp only [hfind, h1, h2, Bool.false_eq_true, if_false, if_true]
      exact dotInvariant_renderNotifications _
  · intro op hop hclick hs
    cases op with
    | initialLoad ns => exact absurd rfl (hop ns)
    | pageDataLoaded tv ott => exact dotInvariant_pageDataLoaded E s tv ott
    | push newNotifications =>
      by_cases hn : newNotifications = s.notificationData
      · show dotInvariant (onmessage s newNotifications)
        rw [onmessage_of_eq s newNotifications hn]
        exact hs
      · exact dotInvariant_onmessage_of_ne s newNotifications hn
    | click e => exact dotInvariant_click s e (hclick e rfl) hs
    | animationEnd id => exact dotInvariant_renderNotifications _
    | clearAll => exact dotInvariant_renderNotifications _
  · intro title message type keys hkeys hl
    constructor
    · rw [renderNotifications_dot, hl]
      rfl
    · show (handleNotificationInteraction (renderNotifications s)
        ⟨some "1", ["mark-read"]⟩).notificationDot = false
      unfold handleNotificationInteraction
      have hfind : findIndex (fun n => decide (n.id = "1"))
          (renderNotifications s).notificationData = some 0 := by
        rw [renderNotifications_data, hl]
        rfl
      have h1 : ["mark-read"].contains "mark-read" = true := by decide
      have h2 : ["mark-read"].contains "dismiss" = false := by decide
      simp only [hfind, h1, h2, Bool.false_eq_true, if_false, if_true]
      rw [renderNotifications_dot]
      simp only [renderNotifications_data, hl]
      rfl

/-- Witness of C9 amended: the scenario of the one unread record. -/
theorem dot_tracks_unread_witness :
    (renderNotifications
        (sampleState "" [] [] [sampleNotification "1" false])).notificationDot = true
      ∧ (runOp refEnv
          (renderNotifications (sampleState "" [] [] [sampleNotification "1" false]))
          (.click ⟨some "1", ["mark-read"]⟩)).notificationDot = false :=
  (dot_tracks_unread refEnv
    (sampleState "" [] [] [sampleNotification "1" false])).2.2.2.2.2.2
    "Title" "Message" "info" dataModelKeys (List.Perm.refl _) rfl

theorem dismiss_click_unchanged (s : AppState) (id : String) :
    handleNotificationInteraction s ⟨some id, ["dismiss"]⟩ = s := by
  unfold handleNotificationInteraction
  simp only []
  split
  · rfl
  · have h1 : ["dismiss"].contains "mark-read" = false := by decide
    have h2 : ["dismiss"].contains "dismiss" = true := by decide
    simp only [h1, h2, Bool.false_eq_true, if_false, if_true]

/-- C10: a click on the dismiss button of the item `id` leaves the state, and so the held
list, unchanged; the animation-end handler removes the first record of that id and nothing
else: the records before and after it keep their order, the records of other ids are the
same list as before, and a list without the id is left as it is; dismissing the only record
leaves the list empty and the placeholder rendered. -/
theorem dismiss_removes_after_animation (s : AppState) (id : String) :
    handleNotificationInteraction s ⟨some id, ["dismiss"]⟩ = s
      ∧ (∀ l1 n l2, s.notificationData = l1 ++ n :: l2 → n.id = id →
          (∀ m ∈ l1, m.id ≠ id) → (dismissAnimationEnd s id).notificationData = l1 ++ l2)
      ∧ ((∀ n ∈ s.notificationData, n.id ≠ id) →
          (dismissAnimationEnd s id).notificationData = s.notificationData)
      ∧ (dismissAnimationEnd s id).notificationData.filter (fun n => n.id ≠ id)
          = s.notificationData.filter (fun n => n.id ≠ id)
      ∧ (∀ n, s.notificationData = [n] → n.id = id →
          (dismissAnimationEnd s id).notificationData = []
            ∧ (dismissAnimationEnd s id).notificationList = .placeholder) := by
  have hdecomp : ∀ l1 n l2, s.notificationData = l1 ++ n :: l2 → n.id = id →
      (∀ m ∈ l1, m.id ≠ id) → (dismissAnimationEnd s id).notificationData = l1 ++ l2 := by
    intro l1 n l2 hl hn hl1
    have hfind : findIndex (fun n => decide (n.id = id)) s.notificationData
        = some l1.length := by
      rw [hl]
      exact findIndex_append _ l1 l2 n (by simpa using hn) (fun m hm => by simpa using hl1 m hm)
    unfold dismissAnimationEnd
    simp only [hfind, renderNotifications_data]
    rw [hl, eraseIdx_append_cons]
  have hnone : (∀ n ∈ s.notificationData, n.id ≠ id) →
      (dismissAnimationEnd s id).notificationData = s.notificationData := by
    intro h
    have hfind : findIndex (fun n => decide (n.id = id)) s.notificationData = none :=
      (findIndex_eq_none _ _).2 (fun m hm => by simpa using h m hm)
    unfold dismissAnimationEnd
    simp only [hfind, renderNotifications_data]
  refine ⟨dismiss_click_unchanged s id, hdecomp, hnone, ?_, ?_⟩
  · cases hfind : findIndex (fun n => decide (n.id = id)) s.notificationData with
    | none =>
      rw [hnone (fun m hm => by simpa using (findIndex_eq_none _ _).1 hfind m hm)]
    | some i =>
      obtain ⟨l1, n, l2, hl, hn, hl1, _⟩ := findIndex_eq_some _ _ _ hfind
      rw [hdecomp l1 n l2 hl (by simpa using hn) (fun m hm => by simpa using hl1 m hm), hl]
      have : n.id = id := by simpa using hn
      simp [List.filter_append, List.filter_cons, this]
  · intro n hl hn
    have h := hdecomp [] n [] (by simpa using hl) hn (by simp)
    refine ⟨by simpa using h, ?_⟩
    have hlist : (dismissAnimationEnd s id).notificationList =
        if (dismissAnimationEnd s id).notificationData = [] then .placeholder
        else .items ((dismissAnimationEnd s id).notificationData.map notificationItemView) := by
      unfold dismissAnimationEnd
      rw [renderNotifications_list, renderNotifications_data]
    rw [hlist, h]
    rfl

/-- Witness of C10: dismissing the only record. -/
theorem dismiss_removes_after_animation_witness :
    (dismissAnimationEnd (sampleState "" [] [] [sampleNotification "1" false]) "1").notificationData
        = []
      ∧ (dismissAnimationEnd (sampleState "" [] [] [sampleNotification "1" false])
          "1").notificationList = .placeholder :=
  (dismiss_removes_after_animation (sampleState "" [] [] [sampleNotification "1" false])
    "1").2.2.2.2 (sampleNotification "1" false) rfl rfl

/-! ## Listing links -/

theorem renderItems_data (s : AppState) (items : List PartnerItem) :
    (renderItems s items).tvData = s.tvData ∧ (renderItems s items).ottData = s.ottData
      ∧ (renderItems s items).locationHash = s.locationHash := by
  unfold renderItems
  split
  · simp only []
    split_ifs <;> exact ⟨rfl, rfl, rfl⟩
  · exact ⟨rfl, rfl, rfl⟩

theorem renderPartnerPage_data (E : JsEnv) (s : AppState) (items : List PartnerItem)
    (title pageType : String) :
    (renderPartnerPage E s items title pageType).tvData = s.tvData
      ∧ (renderPartnerPage E s items title pageType).ottData = s.ottData
      ∧ (renderPartnerPage E s items title pageType).locationHash = s.locationHash := by
  unfold renderPartnerPage
  simp only []
  refine ⟨?_, ?_, ?_⟩
  · rw [(renderItems_data _ _).1]
  · rw [(renderItems_data _ _).2.1]
  · rw [(renderItems_data _ _).2.2]

theorem navigate_data (E : JsEnv) (s : AppState) :
    (navigate E s).tvData = s.tvData ∧ (navigate E s).ottData = s.ottData
      ∧ (navigate E s).locationHash = s.locationHash := by
  unfold navigate
  simp only []
  split_ifs
  all_goals first
    | exact ⟨rfl, rfl, rfl⟩
    | exact renderPartnerPage_data _ _ _ _ _
    | (split <;> exact ⟨rfl, rfl, rfl⟩)

theorem mem_applyFiltersAndSort (E : JsEnv) (term m : String) (items : List PartnerItem)
    (item : PartnerItem) (h : item ∈ applyFiltersAndSort E term m items) : item ∈ items :=
  (List.mem_filter.1 ((arraySort_perm _ _).subset h)).1

theorem renderPartnerPage_rows (E : JsEnv) (s : AppState) (items : List PartnerItem)
    (title pageType : String) (row : PartnerRow)
    (h : row ∈ listingRows (renderPartnerPage E s items title pageType).appContent) :
    row.item ∈ items
      ∧ row.hrefText = "#" ++ hashPageType s.locationHash ++ "/" ++ row.item.id := by
  unfold renderPartnerPage renderItems at h
  simp only [] at h
  split_ifs at h
  all_goals first
    | (simp [listingRows] at h; done)
    | (simp only [listingRows, List.mem_map] at h
       obtain ⟨item, hitem, hrow⟩ := h
       subst hrow
       exact ⟨mem_applyFiltersAndSort E _ _ items item hitem, rfl⟩)

theorem navigate_listing_rows (E : JsEnv) (s : AppState)
    (hid : truthy (navId s.locationHash) = false)
    (habout : navPage s.locationHash ≠ "about")
    (hnotif : navPage s.locationHash ≠ "notifications") (row : PartnerRow)
    (h : row ∈ listingRows (navigate E s).appContent) :
    row.item ∈ (if navPage s.locationHash = "ott" then s.ottData else s.tvData)
      ∧ row.hrefText = "#" ++ hashPageType s.locationHash ++ "/" ++ row.item.id := by
  unfold navigate at h
  simp only [hid, Bool.false_eq_true, if_false] at h
  by_cases htv : navPage s.locationHash = "live-tv"
  · have hott : navPage s.locationHash ≠ "ott" := by rw [htv]; decide
    rw [if_pos htv] at h
    rw [if_neg hott]
    have hrows := renderPartnerPage_rows E _ _ _ _ row h
    exact hrows
  · rw [if_neg htv] at h
    by_cases hott : navPage s.locationHash = "ott"
    · rw [if_pos hott] at h
      rw [if_pos hott]
      have hrows := renderPartnerPage_rows E _ _ _ _ row h
      exact hrows
    · rw [if_neg hott, if_neg habout, if_neg hnotif] at h
      rw [if_neg hott]
      have hrows := renderPartnerPage_rows E _ _ _ _ row h
      exact hrows

theorem splitChars_of_not_mem (sep : Char) (l : List Char) (h : sep ∉ l) :
    splitChars sep l = [l] := by
  rw [splitChars_eq, if_neg h]

theorem splitChars_append_sep (sep : Char) (p i : List Char) (hp : sep ∉ p) :
    splitChars sep (p ++ sep :: i) = p :: splitChars sep i := by
  induction p with
  | nil => simp [splitChars]
  | cons c p ih =>
    have hc : c ≠ sep := fun h => hp (h ▸ List.mem_cons_self c p)
    have hp2 : sep ∉ p := fun h => hp (List.mem_cons_of_mem c h)
    rw [List.cons_append, splitChars, if_neg hc, ih hp2]

theorem navigate_parse_link (pageType id : String) (hp : '/' ∉ pageType.data)
    (hi : '/' ∉ id.data) :
    navPage ("#" ++ pageType ++ "/" ++ id) = pageType
      ∧ navId ("#" ++ pageType ++ "/" ++ id) = some id := by
  have hassoc : "#" ++ pageType ++ "/" ++ id = "#" ++ (pageType ++ "/" ++ id) := by
    simp [String.append_assoc]
  have hdata : (pageType ++ "/" ++ id).data = pageType.data ++ '/' :: id.data := by
    simp [String.data_append]
  unfold navPage navId
  rw [hassoc, split_hash, hdata, splitChars_append_sep _ _ _ hp, splitChars_of_not_mem _ _ hi]
  exact ⟨rfl, rfl⟩

theorem navPage_ott_includes (locationHash : String) (h : navPage locationHash = "ott") :
    includes locationHash "ott" = true := by
  by_cases hempty : locationHash = ""
  · subst hempty
    exact absurd h (by decide)
  · have hnav : navHash locationHash = locationHash := by simp [navHash, orDefault, hempty]
    unfold navPage at h
    rw [hnav] at h
    unfold includes
    rw [includesChars_iff]
    have hsplit : split (substring1 locationHash) '/' =
        (splitChars '/' (locationHash.data.drop 1)).map String.mk := rfl
    rw [hsplit, splitChars_eq] at h
    have htake : (locationHash.data.drop 1).takeWhile (· ≠ '/') = "ott".data := by
      split_ifs at h with hmem
      · simpa using congrArg String.data h
      · rw [takeWhile_ne_of_not_mem _ _ hmem]
        simpa using congrArg String.data h
    have hpre : "ott".data <+: locationHash.data.drop 1 := by
      rw [← htake]
      exact List.takeWhile_prefix _
    exact hpre.isInfix.trans (List.drop_suffix 1 locationHash.data).isInfix

theorem find?_of_nodup_ids (l : List PartnerItem) (item : PartnerItem) (hmem : item ∈ l)
    (hnodup : (l.map (·.id)).Nodup) :
    l.find? (fun d => some d.id = some item.id) = some item := by
  obtain ⟨l1, l2, rfl⟩ := List.append_of_mem hmem
  apply find?_id_append item.id l1 l2 item rfl
  intro d hd hid
  rw [List.map_append, List.map_cons] at hnodup
  have hdisj := (List.nodup_append.1 hnodup).2.2
  exact hdisj (List.mem_map_of_mem _ hd) (hid ▸ List.mem_cons_self _ _)

theorem hashPageType_of_page (s : AppState)
    (hott : includes s.locationHash "ott" = true → navPage s.locationHash = "ott") :
    hashPageType s.locationHash
      = if navPage s.locationHash = "ott" then "ott" else "live-tv" := by
  unfold hashPageType
  by_cases hpage : navPage s.locationHash = "ott"
  · rw [if_pos hpage, if_pos (navPage_ott_includes _ hpage)]
  · rw [if_neg hpage, if_neg (fun h => hpage (hott h))]

theorem decodeCharRefsAux_plain (fuel : Nat) (l : List Char) (hfuel : l.length ≤ fuel)
    (hl : ∀ c ∈ l, c ≠ Char.ofNat 38) : decodeCharRefsAux fuel l = l := by
  induction l generalizing fuel with
  | nil => cases fuel <;> rfl
  | cons c l ih =>
    cases fuel with
    | zero => simp at hfuel
    | succ fuel =>
      have hc : c ≠ Char.ofNat 38 := hl c (List.mem_cons_self c l)
      rw [decodeCharRefsAux, if_neg hc,
        ih fuel (by simpa using hfuel) (fun d hd => hl d (List.mem_cons_of_mem c hd))]

theorem plainChar_facts (c : Char) (h : plainChar c = true) :
    c ≠ dquote ∧ c ≠ Char.ofNat 38 ∧ inFragmentEncodeSet c = false
      ∧ ¬ c.toNat ≤ 32 ∧ c ≠ Char.ofNat 9 ∧ c ≠ Char.ofNat 10 ∧ c ≠ Char.ofNat 13 := by
  simp only [plainChar, Bool.and_eq_true, decide_eq_true_eq, Bool.not_eq_true',
    beq_eq_false_iff_ne, ne_eq] at h
  obtain ⟨⟨⟨⟨⟨⟨h33, h126⟩, hq⟩, hamp⟩, hlt⟩, hgt⟩, hbt⟩ := h
  refine ⟨hq, hamp, ?_, by omega, ?_, ?_, ?_⟩
  · simp only [inFragmentEncodeSet, Bool.or_eq_false_iff, decide_eq_false_iff_not,
      beq_eq_false_iff_ne, ne_eq]
    exact ⟨⟨⟨⟨⟨by omega, by omega⟩, hq⟩, hlt⟩, hgt⟩, hbt⟩
  · rintro rfl
    exact absurd h33 (by decide)
  · rintro rfl
    exact absurd h33 (by decide)
  · rintro rfl
    exact absurd h33 (by decide)

theorem refBrowser_attributeValue_plain (raw : String)
    (h : ∀ c ∈ raw.data, plainChar c = true) : refBrowser.attributeValue raw = raw := by
  show refAttributeValue raw = raw
  unfold refAttributeValue
  have htake : raw.data.takeWhile (· ≠ dquote) = raw.data := by
    rw [List.takeWhile_eq_self_iff]
    intro c hc
    simpa using (plainChar_facts c (h c hc)).1
  have hdecode : decodeCharRefsAux raw.length raw.data = raw.data :=
    decodeCharRefsAux_plain raw.length raw.data (le_of_eq rfl)
      (fun c hc => (plainChar_facts c (h c hc)).2.1)
  rw [htake, hdecode]

theorem fragmentEncode_plain (l : List Char) (h : ∀ c ∈ l, plainChar c = true) :
    fragmentEncode l = l := by
  induction l with
  | nil => rfl
  | cons c l ih =>
    rw [fragmentEncode, (plainChar_facts c (h c (List.mem_cons_self c l))).2.2.1,
      ih (fun d hd => h d (List.mem_cons_of_mem c hd))]
    rfl

theorem dropWhile_of_head {α : Type} (p : α → Bool) (l : List α)
    (h : ∀ a ∈ l, p a = false) : l.dropWhile p = l := by
  cases l with
  | nil => rfl
  | cons a l => simp [List.dropWhile, h a (List.mem_cons_self a l)]

theorem urlInput_plain (l : List Char) (h : ∀ c ∈ l, plainChar c = true) : urlInput l = l := by
  unfold urlInput
  have hsp : ∀ c ∈ l, decide (c.toNat ≤ 32) = false := fun c hc => by
    simpa using (plainChar_facts c (h c hc)).2.2.2.1
  rw [dropWhile_of_head _ l hsp,
    dropWhile_of_head _ l.reverse (fun c hc => hsp c (List.mem_reverse.1 hc)),
    List.reverse_reverse, List.filter_eq_self]
  intro c hc
  have hf := plainChar_facts c (h c hc)
  simp [hf.2.2.2.2.1, hf.2.2.2.2.2.1, hf.2.2.2.2.2.2]

theorem refBrowser_hashAfterLink_plain (frag : String) (hne : frag ≠ "")
    (h : ∀ c ∈ frag.data, plainChar c = true) :
    refBrowser.hashAfterLink ("#" ++ frag) = "#" ++ frag := by
  show refHashAfterLink ("#" ++ frag) = "#" ++ frag
  have hdata : ("#" ++ frag).data = '#' :: frag.data := by simp [String.data_append]
  have hall : ∀ c ∈ '#' :: frag.data, plainChar c = true := by
    intro c hc
    rcases List.mem_cons.1 hc with rfl | hc
    · decide
    · exact h c hc
  have hfrag : frag.data ≠ [] := fun hnil => hne (String.ext hnil)
  unfold refHashAfterLink
  rw [hdata, urlInput_plain _ hall]
  simp only [if_true, hfrag, if_false, fragmentEncode_plain _ h]
  exact String.ext (by simp [String.data_append])

/-- C11, amended: let the browser leave links made of plain characters as they are (the
HTML parser in the `href` attribute, the URL parser in the fragment).  Take a fragment
without an id segment for which `navigate` renders a partner listing (the page is neither
`about` nor `notifications`) and which contains `ott` only when its page is `ott`, the ids
of the listed collection being pairwise distinct.  For every row of the listing whose item
id is not empty, is made of plain characters (printable ASCII other than the space, `"`,
`&`, `<`, `>` and the backtick) and contains no `/`, the link of the row is
`#<pageType>/<item.id>`, and following it makes `navigate` render the detail view of that
same item. -/
theorem listing_links_round_trip (E : JsEnv) (B : Browser)
    (hattr : ∀ raw : String, (∀ c ∈ raw.data, plainChar c = true) →
      B.attributeValue raw = raw)
    (hhash : ∀ frag : String, frag ≠ "" → (∀ c ∈ frag.data, plainChar c = true) →
      B.hashAfterLink ("#" ++ frag) = "#" ++ frag)
    (s : AppState)
    (hid : truthy (navId s.locationHash) = false)
    (habout : navPage s.locationHash ≠ "about")
    (hnotif : navPage s.locationHash ≠ "notifications")
    (hott : includes s.locationHash "ott" = true → navPage s.locationHash = "ott")
    (hnodup : ((if navPage s.locationHash = "ott" then s.ottData else s.tvData).map
      (·.id)).Nodup)
    (row : PartnerRow) (hrow : row ∈ listingRows (navigate E s).appContent)
    (hne : row.item.id ≠ "") (hplain : ∀ c ∈ row.item.id.data, plainChar c = true)
    (hslash : '/' ∉ row.item.id.data) :
    rowLink B row = "#" ++ hashPageType s.locationHash ++ "/" ++ row.item.id
      ∧ (hashchange E B (navigate E s) (rowLink B row)).appContent
          = .detail ("#" ++ hashPageType (rowLink B row)) row.item := by
  obtain ⟨hmem, hhref⟩ := navigate_listing_rows E s hid habout hnotif row hrow
  have hP := hashPageType_of_page s hott
  have hPplain : ∀ c ∈ (hashPageType s.locationHash).data, plainChar c = true := by
    rw [hP]
    split_ifs <;> decide
  have hPslash : '/' ∉ (hashPageType s.locationHash).data := by
    rw [hP]
    split_ifs <;> decide
  have hassoc : "#" ++ hashPageType s.locationHash ++ "/" ++ row.item.id
      = "#" ++ (hashPageType s.locationHash ++ "/" ++ row.item.id) := by
    simp [String.append_assoc]
  have hfragdata : (hashPageType s.locationHash ++ "/" ++ row.item.id).data
      = (hashPageType s.locationHash).data ++ '/' :: row.item.id.data := by
    simp [String.data_append]
  have hfragplain : ∀ c ∈ (hashPageType s.locationHash ++ "/" ++ row.item.id).data,
      plainChar c = true := by
    rw [hfragdata]
    intro c hc
    rcases List.mem_append.1 hc with hc | hc
    · exact hPplain c hc
    · rcases List.mem_cons.1 hc with rfl | hc
      · decide
      · exact hplain c hc
  have hfragne : hashPageType s.locationHash ++ "/" ++ row.item.id ≠ "" := by
    intro h
    have := congrArg String.data h
    rw [hfragdata] at this
    simp at this
  have hlink : rowLink B row = "#" ++ hashPageType s.locationHash ++ "/" ++ row.item.id := by
    unfold rowLink
    rw [hhref, hassoc]
    apply hattr
    intro c hc
    have hdata : ("#" ++ (hashPageType s.locationHash ++ "/" ++ row.item.id)).data
        = '#' :: (hashPageType s.locationHash ++ "/" ++ row.item.id).data := by
      simp [String.data_append]
    rw [hdata] at hc
    rcases List.mem_cons.1 hc with rfl | hc
    · decide
    · exact hfragplain c hc
  refine ⟨hlink, ?_⟩
  have hhashlink : B.hashAfterLink (rowLink B row) = rowLink B row := by
    rw [hlink, hassoc]
    exact hhash _ hfragne hfragplain
  have hparse : navPage (rowLink B row) = hashPageType s.locationHash
      ∧ navId (rowLink B row) = some row.item.id := by
    rw [hlink]
    exact navigate_parse_link _ _ hPslash hslash
  unfold hashchange
  rw [hhashlink,
    navigate_of_id E { navigate E s with locationHash := rowLink B row } row.item.id
      hparse.2 hne]
  simp only [hparse.1, (navigate_data E s).1, (navigate_data E s).2.1]
  have hcoll : (if hashPageType s.locationHash = "live-tv" then s.tvData else s.ottData)
      = (if navPage s.locationHash = "ott" then s.ottData else s.tvData) := by
    rw [hP]
    by_cases hpage : navPage s.locationHash = "ott"
    · simp [hpage]
    · simp [hpage]
  rw [hcoll, find?_of_nodup_ids _ row.item hmem hnodup]

/-- Witness of C11 amended: the second row of a live-tv listing, in the reference browser. -/
theorem listing_links_round_trip_witness :
    rowLink refBrowser ⟨"#live-tv/abc123", sampleItem "abc123" "Two"⟩
        = "#" ++ hashPageType "#live-tv" ++ "/" ++ "abc123"
      ∧ (hashchange refEnv refBrowser
          (navigate refEnv (sampleState "#live-tv"
            [sampleItem "x1" "One", sampleItem "abc123" "Two"] [sampleItem "x1" "Other"] []))
          (rowLink refBrowser ⟨"#live-tv/abc123", sampleItem "abc123" "Two"⟩)).appContent
        = .detail
            ("#" ++ hashPageType
              (rowLink refBrowser ⟨"#live-tv/abc123", sampleItem "abc123" "Two"⟩))
            (sampleItem "abc123" "Two") :=
  listing_links_round_trip refEnv refBrowser refBrowser_attributeValue_plain
    refBrowser_hashAfterLink_plain
    (sampleState "#live-tv" [sampleItem "x1" "One", sampleItem "abc123" "Two"]
      [sampleItem "x1" "Other"] [])
    (by decide) (by decide) (by decide) (by decide) (by decide)
    ⟨"#live-tv/abc123", sampleItem "abc123" "Two"⟩ (by decide) (by decide) (by decide)
    (by decide)

/-- C11, as stated, fails for ids that the link cannot carry, here in live-tv listings and
in the reference browser.  The id `a/b`: the link is `#live-tv/a/b`, `navigate` reads the id
`a` and renders the not-found view.  The empty id: the link is `#live-tv/`, `navigate` reads
no id and renders the listing again.  The id `a b`: the browser percent-encodes the space,
`location.hash` is `#live-tv/a%20b`, and the not-found view is rendered.  The id `a"b`: the
`"` ends the attribute, the link is `#live-tv/a`, and the not-found view is rendered.  The
id `a&amp;b`: the parser decodes the reference, the link is `#live-tv/a&b`, and the
not-found view is rendered. -/
theorem listing_link_lost :
    ((⟨"#live-tv/a/b", sampleItem "a/b" "One"⟩ : PartnerRow)
        ∈ listingRows (navigate refEnv
            (sampleState "#live-tv" [sampleItem "a/b" "One"] [] [])).appContent
      ∧ (hashchange refEnv refBrowser
          (navigate refEnv (sampleState "#live-tv" [sampleItem "a/b" "One"] [] []))
          (rowLink refBrowser ⟨"#live-tv/a/b", sampleItem "a/b" "One"⟩)).appContent
        = .notFound)
      ∧ ((⟨"#live-tv/", sampleItem "" "One"⟩ : PartnerRow)
        ∈ listingRows (navigate refEnv
            (sampleState "#live-tv" [sampleItem "" "One"] [] [])).appContent
      ∧ listingRows (hashchange refEnv refBrowser
          (navigate refEnv (sampleState "#live-tv" [sampleItem "" "One"] [] []))
          (rowLink refBrowser ⟨"#live-tv/", sampleItem "" "One"⟩)).appContent
        = [⟨"#live-tv/", sampleItem "" "One"⟩])
      ∧ ((⟨"#live-tv/a b", sampleItem "a b" "One"⟩ : PartnerRow)
        ∈ listingRows (navigate refEnv
            (sampleState "#live-tv" [sampleItem "a b" "One"] [] [])).appContent
      ∧ refBrowser.hashAfterLink (rowLink refBrowser ⟨"#live-tv/a b", sampleItem "a b" "One"⟩)
        = "#live-tv/a%20b"
      ∧ (hashchange refEnv refBrowser
          (navigate refEnv (sampleState "#live-tv" [sampleItem "a b" "One"] [] []))
          (rowLink refBrowser ⟨"#live-tv/a b", sampleItem "a b" "One"⟩)).appContent
        = .notFound)
      ∧ ((⟨"#live-tv/a\x22b", sampleItem "a\x22b" "One"⟩ : PartnerRow)
        ∈ listingRows (navigate refEnv
            (sampleState "#live-tv" [sampleItem "a\x22b" "One"] [] [])).appContent
      ∧ rowLink refBrowser ⟨"#live-tv/a\x22b", sampleItem "a\x22b" "One"⟩ = "#live-tv/a"
      ∧ (hashchange refEnv refBrowser
          (navigate refEnv (sampleState "#live-tv" [sampleItem "a\x22b" "One"] [] []))
          (rowLink refBrowser ⟨"#live-tv/a\x22b", sampleItem "a\x22b" "One"⟩)).appContent
        = .notFound)
      ∧ ((⟨"#live-tv/a&amp;b", sampleItem "a&amp;b" "One"⟩ : PartnerRow)
        ∈ listingRows (navigate refEnv
            (sampleState "#live-tv" [sampleItem "a&amp;b" "One"] [] [])).appContent
      ∧ rowLink refBrowser ⟨"#live-tv/a&amp;b", sampleItem "a&amp;b" "One"⟩ = "#live-tv/a&b"
      ∧ (hashchange refEnv refBrowser
          (navigate refEnv (sampleState "#live-tv" [sampleItem "a&amp;b" "One"] [] []))
          (rowLink refBrowser ⟨"#live-tv/a&amp;b", sampleItem "a&amp;b" "One"⟩)).appContent
        = .notFound) := by
  decide

/-- The page type of the links is read from the whole hash: for the unrecognised fragment
`lottery`, which `navigate` answers with the live-tv listing, the rows link to `#ott/...`,
and the lookup behind the link goes to the ott collection. -/
theorem listing_links_ott_substring :
    listingRows (navigate refEnv
        (sampleState "#lottery" [sampleItem "a1" "One"] [] [])).appContent
        = [⟨"#ott/a1", sampleItem "a1" "One"⟩]
      ∧ (hashchange refEnv refBrowser
          (navigate refEnv (sampleState "#lottery" [sampleItem "a1" "One"] [] []))
          (rowLink refBrowser ⟨"#ott/a1", sampleItem "a1" "One"⟩)).appContent
        = .notFound := by
  decide
end Retro
